import Mathlib

/-!
Verification of the newsFinder sitemap-discovery / extraction pipeline.

Each Python function named in the claims is shallowly embedded as an
executable Lean definition over `List Char` strings, integer timestamps
(seconds), and explicit oracles for network / browser / LLM effects.
Definitions are translated from the repository sources
(`sitemap_filters.py`, `sitemap_discovery.py`, `stream_scraping_pipeline.py`,
`selection_extraction_pipeline.py`, `selector_scraper.py`); the theorems at
the end settle the claims.
-/

namespace NewsFinder

/-- Value of an ASCII decimal digit character. -/
def digitVal (c : Char) : Nat := c.toNat - 48

/-- Python-style whitespace test used by `str.strip` (ASCII subset). -/
def isPySpace (c : Char) : Bool :=
  c = ' ' || c = '\t' || c = '\n' || c = '\r' || c = '\x0b' || c = '\x0c'

/-- `str.strip()` on a character list. -/
def pyStrip (l : List Char) : List Char :=
  ((l.dropWhile isPySpace).reverse.dropWhile isPySpace).reverse

/-! ## C4: `sitemap_filters.filter_sitemaps_by_year` -/

/-- If the list starts with four ASCII digits forming a number in
[1950, 2039] (the regex `19[5-9]\d|20[0-3]\d`), return that number.
This is the anchored form of the year pattern. -/
def year4? : List Char → Option Nat
  | a :: b :: c :: d :: _ =>
    if a.isDigit && b.isDigit && c.isDigit && d.isDigit then
      if 1950 ≤ 1000 * digitVal a + 100 * digitVal b + 10 * digitVal c + digitVal d ∧
          1000 * digitVal a + 100 * digitVal b + 10 * digitVal c + digitVal d ≤ 2039 then
        some (1000 * digitVal a + 100 * digitVal b + 10 * digitVal c + digitVal d)
      else none
    else none
  | _ => none

/-- `re.findall(r'(19[5-9]\d|20[0-3]\d)', url)` as integers: leftmost,
non-overlapping scan (a match consumes its four characters). -/
def findallYears : List Char → List Nat
  | [] => []
  | c :: rest =>
    match year4? (c :: rest) with
    | some v => v :: findallYears (rest.drop 3)
    | none => findallYears rest
termination_by l => l.length
decreasing_by
  · simp [List.length_drop]; omega
  · simp

/-- All in-range year numbers readable at ANY position of the string
(overlapping occurrences included).  This is the claim-side notion of
"the URL contains a 4-digit year token in the range 1950-2039". -/
def positionYears : List Char → List Nat
  | [] => []
  | c :: rest =>
    match year4? (c :: rest) with
    | some v => v :: positionYears rest
    | none => positionYears rest

/-- The per-URL keep decision of `filter_sitemaps_by_year`: keep iff the
regex finds no year, or every year found equals the current year. -/
def keepByYear (currentYear : Nat) (u : List Char) : Bool :=
  (findallYears u).isEmpty || (findallYears u).all (fun y => y == currentYear)

/-- `sitemap_filters.filter_sitemaps_by_year` (the returned `kept` list). -/
def filter_sitemaps_by_year (currentYear : Nat) (urls : List (List Char)) :
    List (List Char) :=
  urls.filter (keepByYear currentYear)

/-- Claim-side predicate: the URL contains (at some position, overlapping
allowed) a 4-digit year in [1950, 2039] different from the current year. -/
def containsOtherYear (currentYear : Nat) (u : List Char) : Bool :=
  (positionYears u).any (fun y => y ≠ currentYear)

/-! ## Calendar arithmetic (Python `datetime` / `calendar`, proleptic Gregorian) -/

/-- `calendar.isleap`. -/
def isLeap (y : Nat) : Bool := y % 4 == 0 && (y % 100 != 0 || y % 400 == 0)

/-- `calendar.monthrange(y, m)[1]` for `m` in 1..12. -/
def monthDays (y m : Nat) : Nat :=
  if m = 2 then (if isLeap y then 29 else 28)
  else if m = 4 ∨ m = 6 ∨ m = 9 ∨ m = 11 then 30 else 31

/-- Days in the months of year `y` strictly before month `m`. -/
def daysBeforeMonth (y m : Nat) : Nat :=
  ((List.range (m - 1)).map (fun i => monthDays y (i + 1))).sum

/-- Day count of a Gregorian date from day 0 = 0001-01-01 (rata die - 1). -/
def daysFromCivil (y m d : Nat) : Nat :=
  365 * (y - 1) + (y - 1) / 4 - (y - 1) / 100 + (y - 1) / 400
    + daysBeforeMonth y m + (d - 1)

/-- A `datetime.date`-like value (always midnight UTC in this model). -/
structure PyDate where
  year : Nat
  month : Nat
  day : Nat
deriving DecidableEq, Repr

/-- The validity condition enforced by the `datetime` constructor. -/
def validDate (y m d : Nat) : Bool :=
  1 ≤ y && y ≤ 9999 && 1 ≤ m && m ≤ 12 && 1 ≤ d && d ≤ monthDays y m

/-- `datetime(y, m, d, tzinfo=utc)`: `none` models the `ValueError` that the
source catches with `except (ValueError, OverflowError): pass`. -/
def mkDatetime (y m d : Nat) : Option PyDate :=
  if validDate y m d then some ⟨y, m, d⟩ else none

/-- Timestamp (seconds) of midnight of a date. -/
def dateSecs (dt : PyDate) : Int := (daysFromCivil dt.year dt.month dt.day : Int) * 86400

/-- The current instant (`datetime.now(timezone.utc)`): a calendar date plus
the elapsed seconds of that day. -/
structure NowTime where
  date : PyDate
  secOfDay : Nat

/-- Timestamp (seconds) of the current instant. -/
def nowSecs (n : NowTime) : Int := dateSecs n.date + (n.secOfDay : Int)

/-! ## C3: `sitemap_filters.extract_date_from_url` / `filter_by_date`

Each regex of the source is embedded as an anchored matcher replayed at every
start position (`searchFirst` = `re.search` leftmost semantics), with the
source's backtracking order made explicit where a pattern has alternatives. -/

/-- Read exactly `k` ASCII digits, returning their value and the rest. -/
def takeDigits : Nat → List Char → Option (Nat × List Char)
  | 0, l => some (0, l)
  | _ + 1, [] => none
  | k + 1, c :: l =>
    if c.isDigit then (takeDigits k l).map (fun p => (digitVal c * 10 ^ k + p.1, p.2))
    else none

/-- Consume a literal character sequence. -/
def matchLit : List Char → List Char → Option (List Char)
  | [], l => some l
  | _ :: _, [] => none
  | p :: ps, c :: l => if c = p then matchLit ps l else none

/-- `re.search` position scan: try the anchored matcher at each suffix,
left to right, returning the first success. -/
def searchFirst {α : Type} (f : List Char → Option α) : List Char → Option α
  | [] => f []
  | c :: r => (f (c :: r)).orElse (fun _ => searchFirst f r)

/-- Anchored `[?&]year=(\d{4})`. -/
def anchYearParam : List Char → Option Nat
  | c :: r =>
    if c = '?' || c = '&' then do
      let r1 ← matchLit "year=".toList r
      let (v, _) ← takeDigits 4 r1
      some v
    else none
  | [] => none

/-- Priority 0a: `?year=YYYY` query parameter, mapped to January 1st. -/
def stageYearParam (u : List Char) : Option PyDate :=
  match searchFirst anchYearParam u with
  | some y => mkDatetime y 1 1
  | none => none

/-- Anchored `[?&]date=(\d{4})-(\d{2})-(\d{2})`. -/
def anchDateParam : List Char → Option (Nat × Nat × Nat)
  | c :: r =>
    if c = '?' || c = '&' then do
      let r1 ← matchLit "date=".toList r
      let (y, r2) ← takeDigits 4 r1
      let r3 ← matchLit ['-'] r2
      let (m, r4) ← takeDigits 2 r3
      let r5 ← matchLit ['-'] r4
      let (d, _) ← takeDigits 2 r5
      some (y, m, d)
    else none
  | [] => none

/-- Priority 0b: `?date=YYYY-MM-DD` query parameter. -/
def stageDateParam (u : List Char) : Option PyDate :=
  match searchFirst anchDateParam u with
  | some (y, m, d) => mkDatetime y m d
  | none => none

/-- Separator class `[-_/]`. -/
def sepDash (c : Char) : Bool := c = '-' || c = '_' || c = '/'

/-- Boundary `(?:[-_.]|$)`. -/
def boundaryDashDot : List Char → Bool
  | [] => true
  | c :: _ => c = '-' || c = '_' || c = '.'

/-- Anchored `[-_/](\d{8})(?:[-_.]|$)`. -/
def anchCompact8 : List Char → Option Nat
  | c :: r =>
    if sepDash c then do
      let (v, r1) ← takeDigits 8 r
      if boundaryDashDot r1 then some v else none
    else none
  | [] => none

/-- Priority 1: compact `YYYYMMDD`. -/
def stageCompact8 (u : List Char) : Option PyDate :=
  match searchFirst anchCompact8 u with
  | some v => mkDatetime (v / 10000) (v / 100 % 100) (v % 100)
  | none => none

/-- Anchored `[-_](\d{4})-(\d{2})-(\d{2})`. -/
def anchDashed : List Char → Option (Nat × Nat × Nat)
  | c :: r =>
    if c = '-' || c = '_' then do
      let (y, r1) ← takeDigits 4 r
      let r2 ← matchLit ['-'] r1
      let (m, r3) ← takeDigits 2 r2
      let r4 ← matchLit ['-'] r3
      let (d, _) ← takeDigits 2 r4
      some (y, m, d)
    else none
  | [] => none

/-- Priority 2: dashed `YYYY-MM-DD` after a `-` or `_` separator. -/
def stageDashed (u : List Char) : Option PyDate :=
  match searchFirst anchDashed u with
  | some (y, m, d) => mkDatetime y m d
  | none => none

/-- Boundary `(?:/|$)`. -/
def boundarySlash : List Char → Bool
  | [] => true
  | c :: _ => c = '/'

/-- Day part `(\d{1,2})(?:/|$)`: greedy, two digits tried before one. -/
def p3Day : List Char → Option Nat
  | a :: b :: r =>
    if a.isDigit && b.isDigit && boundarySlash r then some (10 * digitVal a + digitVal b)
    else if a.isDigit && boundarySlash (b :: r) then some (digitVal a)
    else none
  | [a] => if a.isDigit then some (digitVal a) else none
  | [] => none

/-- Month-slash-day part `(\d{1,2})/(\d{1,2})(?:/|$)` with the regex
backtracking order (two-digit month first, then one-digit). -/
def p3MonthDay (l : List Char) : Option (Nat × Nat) :=
  (match l with
   | a :: b :: sl :: r =>
     if a.isDigit && b.isDigit && sl = '/' then
       (p3Day r).map (fun d => (10 * digitVal a + digitVal b, d))
     else none
   | _ => none).orElse (fun _ =>
    match l with
    | a :: sl :: r =>
      if a.isDigit && sl = '/' then (p3Day r).map (fun d => (digitVal a, d))
      else none
    | _ => none)

/-- Anchored `/(\d{4})/(\d{1,2})/(\d{1,2})(?:/|$)`. -/
def anchPathDate : List Char → Option (Nat × Nat × Nat)
  | c :: r =>
    if c = '/' then do
      let (y, r1) ← takeDigits 4 r
      let r2 ← matchLit ['/'] r1
      let (md : Nat × Nat) ← p3MonthDay r2
      some (y, md.1, md.2)
    else none
  | [] => none

/-- Priority 3: path `/YYYY/MM/DD/`. -/
def stagePathDate (u : List Char) : Option PyDate :=
  match searchFirst anchPathDate u with
  | some (y, m, d) => mkDatetime y m d
  | none => none

/-- Anchored `dd=(\d{1,2})` (tail of the lazy gap `.*?dd=...`). -/
def anchDD (l : List Char) : Option Nat := do
  let r ← matchLit "dd=".toList l
  match r with
  | a :: b :: _ =>
    if a.isDigit && b.isDigit then some (10 * digitVal a + digitVal b)
    else if a.isDigit then some (digitVal a) else none
  | [a] => if a.isDigit then some (digitVal a) else none
  | [] => none

/-- Lazy search `.*?dd=(\d{1,2})`: smallest gap first. -/
def findDD : List Char → Option Nat := searchFirst anchDD

/-- Anchored `mm=(\d{1,2}).*?dd=(\d{1,2})` with the regex backtracking order:
two-digit month first, falling back to one digit when the `dd=` search
after the two-digit month fails. -/
def anchMM (l : List Char) : Option (Nat × Nat) := do
  let r ← matchLit "mm=".toList l
  match r with
  | a :: b :: rest =>
    if a.isDigit && b.isDigit then
      match findDD rest with
      | some d => some (10 * digitVal a + digitVal b, d)
      | none =>
        match findDD (b :: rest) with
        | some d => some (digitVal a, d)
        | none => none
    else if a.isDigit then (findDD (b :: rest)).map (fun d => (digitVal a, d))
    else none
  | _ => none

/-- Anchored `[?&]yyyy=(\d{4}).*?mm=(\d{1,2}).*?dd=(\d{1,2})`. -/
def anchYmdQuery : List Char → Option (Nat × Nat × Nat)
  | c :: r =>
    if c = '?' || c = '&' then do
      let r1 ← matchLit "yyyy=".toList r
      let (y, r2) ← takeDigits 4 r1
      let (md : Nat × Nat) ← searchFirst anchMM r2
      some (y, md.1, md.2)
    else none
  | [] => none

/-- Priority 4: query `?yyyy=YYYY&mm=MM&dd=DD`. -/
def stageYmdQuery (u : List Char) : Option PyDate :=
  match searchFirst anchYmdQuery u with
  | some (y, m, d) => mkDatetime y m d
  | none => none

/-- Negative lookahead `(?!-\d{2})`: true when the rest does NOT start with
a dash followed by two digits. -/
def lookNotDashDD : List Char → Bool
  | '-' :: a :: b :: _ => !(a.isDigit && b.isDigit)
  | _ => true

/-- Tail `(?:[-_.]|\.xml|$)(?!-\d{2})` of the year-month pattern, with the
alternation explored in the regex order. -/
def p5Tail (l : List Char) : Bool :=
  (match l with
   | c :: r => (c = '-' || c = '_' || c = '.') && lookNotDashDD r
   | [] => false)
  || (match l with
      | '.' :: 'x' :: 'm' :: 'l' :: r => lookNotDashDD r
      | _ => false)
  || l.isEmpty

/-- Anchored `[-_/](\d{4})-(\d{2})(?:[-_.]|\.xml|$)(?!-\d{2})`. -/
def anchYearMonth : List Char → Option (Nat × Nat)
  | c :: r =>
    if sepDash c then do
      let (y, r1) ← takeDigits 4 r
      let r2 ← matchLit ['-'] r1
      let (m, r3) ← takeDigits 2 r2
      if p5Tail r3 then some (y, m) else none
    else none
  | [] => none

/-- Priority 5: month-only `YYYY-MM`.  Day inference of the source: the
current day when year and month both match `now`, otherwise the last day of
that month (`calendar.monthrange`, which raises for a month outside 1..12). -/
def stageYearMonth (now : NowTime) (u : List Char) : Option PyDate :=
  match searchFirst anchYearMonth u with
  | some (y, m) =>
    if y = now.date.year ∧ m = now.date.month then
      mkDatetime y m now.date.day
    else if 1 ≤ m ∧ m ≤ 12 then
      mkDatetime y m (monthDays y m)
    else none
  | none => none

/-- `sitemap_filters.extract_date_from_url`: the six patterns tried in the
source's order; an extraction whose `datetime` constructor raises falls
through to the next pattern. -/
def extract_date_from_url (now : NowTime) (u : List Char) : Option PyDate :=
  match stageYearParam u with
  | some d => some d
  | none =>
  match stageDateParam u with
  | some d => some d
  | none =>
  match stageCompact8 u with
  | some d => some d
  | none =>
  match stageDashed u with
  | some d => some d
  | none =>
  match stagePathDate u with
  | some d => some d
  | none =>
  match stageYmdQuery u with
  | some d => some d
  | none => stageYearMonth now u

/-- The age acceptance test shared by the URL-date and lastmod branches of
`filter_by_date`: future dates are tolerated up to 24 hours, past dates up
to `h` hours (ages in seconds; the source's float division by 3600 is exact
at these magnitudes). -/
def ageOk (h : Nat) (age : Int) : Bool :=
  if age < 0 then -age ≤ 86400 else age ≤ 3600 * (h : Int)

/-- `sitemap_filters.filter_by_date` (returned boolean). -/
def filter_by_date (u : List Char) (h : Nat) (conservative : Bool)
    (xmlLastmod : Option Int) (now : NowTime) : Bool :=
  match extract_date_from_url now u with
  | some d => ageOk h (nowSecs now - dateSecs d)
  | none =>
    match xmlLastmod with
    | some t => ageOk h (nowSecs now - t)
    | none => conservative

/-- First defined value of a list of options (used to state the pattern
priority order of the claim). -/
def firstSome {α : Type} : List (Option α) → Option α
  | [] => none
  | o :: r => match o with | some a => some a | none => firstSome r

/-- The date the filter judges: the URL date when one exists, else the
XML lastmod timestamp. -/
def chosenTs (u : List Char) (xmlLastmod : Option Int) (now : NowTime) : Option Int :=
  match extract_date_from_url now u with
  | some d => some (dateSecs d)
  | none => xmlLastmod

/-! ## C10: `sitemap_discovery.parse_sitemaps_from_robots` -/

/-- `str.splitlines` worker (newline conventions found in robots.txt). -/
def splitLinesAux : List Char → List Char → List (List Char)
  | [], cur => [cur.reverse]
  | '\r' :: '\n' :: r, cur => cur.reverse :: (if r.isEmpty then [] else splitLinesAux r [])
  | '\r' :: r, cur => cur.reverse :: (if r.isEmpty then [] else splitLinesAux r [])
  | '\n' :: r, cur => cur.reverse :: (if r.isEmpty then [] else splitLinesAux r [])
  | c :: r, cur => splitLinesAux r (c :: cur)

/-- `str.splitlines` (no trailing empty line, empty string gives no lines). -/
def pySplitlines (l : List Char) : List (List Char) :=
  if l.isEmpty then [] else splitLinesAux l []

/-- Lowercase a character list (`str.lower`, ASCII behaviour). -/
def lowerList (l : List Char) : List Char := l.map Char.toLower

/-- `line.lower().startswith("sitemap:")`. -/
def isSitemapLine (line : List Char) : Bool :=
  "sitemap:".toList.isPrefixOf (lowerList line)

/-- Everything after the first colon (`line.split(":", 1)[1]`). -/
def afterFirstColon : List Char → List Char
  | [] => []
  | ':' :: r => r
  | _ :: r => afterFirstColon r

/-- The absolute sitemap URLs declared by `Sitemap:` lines, in file order
(the `urls` local of the source).  `absolutize` abstracts
`urljoin(_normalize_root_url(base_url), raw)` for the fixed base. -/
def declaredSitemaps (absolutize : List Char → List Char) (robots : List Char) :
    List (List Char) :=
  (pySplitlines robots).filterMap (fun line =>
    if isSitemapLine line then
      let raw := pyStrip (afterFirstColon line)
      if raw.isEmpty then none else some (absolutize raw)
    else none)

/-- First-occurrence-order deduplication (the `seen` set loop). -/
def dedupFirstAux {α : Type} [DecidableEq α] (seen : List α) : List α → List α
  | [] => []
  | u :: r => if u ∈ seen then dedupFirstAux seen r else u :: dedupFirstAux (u :: seen) r

/-- First-occurrence-order deduplication from an empty seen set. -/
def dedupFirst {α : Type} [DecidableEq α] (l : List α) : List α := dedupFirstAux [] l

/-- The news-only keyword list of the source. -/
def newsKeywords : List (List Char) :=
  ["news".toList, "article".toList, "post".toList, "sitemap.xml".toList,
   "sitemap_index".toList]

/-- Substring containment test (Python `in` on strings). -/
def isInfixList {α : Type} [DecidableEq α] (k : List α) : List α → Bool
  | [] => k.isEmpty
  | c :: r => k.isPrefixOf (c :: r) || isInfixList k r

/-- A URL whose lowercased form contains one of the news keywords. -/
def newsRelated (u : List Char) : Bool :=
  newsKeywords.any (fun k => isInfixList k (lowerList u))

/-- `sitemap_discovery.parse_sitemaps_from_robots`. -/
def parse_sitemaps_from_robots (absolutize : List Char → List Char)
    (robots : List Char) (newsOnly : Bool) : List (List Char) :=
  if robots.isEmpty then []
  else
    let out := dedupFirst (declaredSitemaps absolutize robots)
    if newsOnly then out.filter newsRelated else out

/-! ## C6: `sitemap_discovery.fetch_robots_txt_meta` -/

/-- An HTTP response as seen by the robots fetcher. -/
structure HttpResp where
  status : Nat
  text : String

/-- Outcome of the headless-browser retry machinery.  `importError` models
the `playwright` import raising (before the attempted flag is set);
`launchError` a failure after the flag but before the page fetch;
`gotoError` an exception during `page.goto`/`evaluate`; `rendered` a
completed page fetch with its body text. -/
inductive BrowserOutcome where
  | importError
  | launchError
  | gotoError
  | rendered (body : String)

/-- The effects `fetch_robots_txt_meta` depends on: the plain HTTP result
(`none` = the request raised), the `ROBOTS_BROWSER_RETRY` toggle, and the
browser outcome were a retry to run. -/
structure RobotsWorld where
  http : Option HttpResp
  retryEnabled : Bool
  browser : BrowserOutcome

/-- The returned record, plus an instrumentation count of how many
headless-browser page fetches the call performed. -/
structure RobotsResult where
  text : String
  attempted : Bool
  status : String
  browserFetches : Nat
deriving DecidableEq, Repr

/-- `not text.strip()` for a string. -/
def strBlank (s : String) : Bool := (pyStrip s.toList).isEmpty

/-- `sitemap_discovery.fetch_robots_txt_meta` as a pure decision tree. -/
def fetch_robots_txt_meta (w : RobotsWorld) : RobotsResult :=
  match w.http with
  | none => { text := "", attempted := false, status := "failed", browserFetches := 0 }
  | some r =>
    if (300 ≤ r.status ∧ r.status < 400) ∨ r.status = 403 then
      if w.retryEnabled then
        match w.browser with
        | .importError =>
          { text := "", attempted := false, status := "not_attempted", browserFetches := 0 }
        | .launchError =>
          { text := "", attempted := true, status := "failed", browserFetches := 0 }
        | .gotoError =>
          { text := "", attempted := true, status := "failed", browserFetches := 1 }
        | .rendered body =>
          if strBlank body then
            { text := "", attempted := true, status := "failed", browserFetches := 1 }
          else
            { text := body, attempted := true, status := "bypassed", browserFetches := 1 }
      else
        { text := "", attempted := false, status := "disabled", browserFetches := 0 }
    else if 400 ≤ r.status then
      { text := "", attempted := false, status := "failed", browserFetches := 0 }
    else
      { text := r.text, attempted := false, status := "not_needed", browserFetches := 0 }

/-! ## C2: `selection_extraction_pipeline.expand_recursive`, urlset (leaf) branch

XML elements carry an ElementTree-style tag string (`tag` or
namespaced as an opening brace, the namespace URI, a closing brace, then the
local name), a text (empty list models a missing/None text), and children in
document order. -/

/-- An ElementTree element. -/
inductive XElem where
  | mk (tag : List Char) (text : List Char) (children : List XElem)

/-- Tag of an element. -/
def XElem.tag : XElem → List Char
  | .mk t _ _ => t

/-- Text of an element. -/
def XElem.text : XElem → List Char
  | .mk _ x _ => x

/-- Children of an element. -/
def XElem.children : XElem → List XElem
  | .mk _ _ cs => cs

mutual
/-- All proper descendants in document order (the `.//` axis). -/
def XElem.descendants : XElem → List XElem
  | .mk _ _ cs => descList cs

/-- Descendants-or-self of a forest, in document order. -/
def descList : List XElem → List XElem
  | [] => []
  | c :: cs => c :: XElem.descendants c ++ descList cs
end

/-- The rest after the first closing brace, if any. -/
def afterFirstRBrace : List Char → Option (List Char)
  | [] => none
  | '}' :: r => some r
  | _ :: r => afterFirstRBrace r

/-- ElementTree namespace wildcard matching: tag equals `name`, or is
`name` qualified by some namespace in braces. -/
def matchStar (name : List Char) (t : List Char) : Bool :=
  t == name ||
  (match t with
   | '{' :: r => afterFirstRBrace r == some name
   | _ => false)

/-- The local name used by the title scan (text after the last closing
brace; the whole tag when unqualified). -/
def afterLastRBrace (t : List Char) : List Char :=
  (t.reverse.takeWhile (fun c => c ≠ '}')).reverse

/-- `root.findall(".//" ++ wildcard name)`: matching descendants in
document order. -/
def findallStar (root : XElem) (name : List Char) : List XElem :=
  root.descendants.filter (fun e => matchStar name e.tag)

/-- `root.find(".//" ++ wildcard name)`: the first matching descendant. -/
def findStar (root : XElem) (name : List Char) : Option XElem :=
  (findallStar root name).head?

/-- Worker of `_child_text_any_ns`: the first direct child whose tag ends
with the local name and whose stripped text is non-empty. -/
def childTextAux (name : List Char) : List XElem → Option (List Char)
  | [] => none
  | c :: cs =>
    if name.isSuffixOf c.tag then
      let txt := pyStrip c.text
      if txt.isEmpty then childTextAux name cs else some txt
    else childTextAux name cs

/-- `sitemap_discovery._child_text_any_ns`. -/
def child_text_any_ns (e : XElem) (name : List Char) : Option (List Char) :=
  childTextAux name e.children

/-- Title-like local names accepted by the leaf scan. -/
def titleNames : List (List Char) :=
  ["title".toList, "headline".toList, "name".toList]

/-- Some tag among the node and its descendants has a title-like local name
and non-empty stripped text (the `url_node.iter()` scan). -/
def titleLike (nd : XElem) : Bool :=
  (nd :: nd.descendants).any (fun d =>
    titleNames.contains (lowerList (afterLastRBrace d.tag)) &&
      !(pyStrip d.text).isEmpty)

/-- The date text of a sampled entry: a `lastmod` direct child, else the
first wildcard-namespace `publication_date` descendant (empty when absent). -/
def entryDateText (nd : XElem) : List Char :=
  match child_text_any_ns nd "lastmod".toList with
  | some t => t
  | none =>
    match findStar nd "publication_date".toList with
    | some el => pyStrip el.text
    | none => []

/-- Parameters of the leaf decision: the W3C datetime parser abstracted as
a function to naive-UTC seconds, the current `utcnow` timestamp, the
recency window in hours, and the `SITEMAP_REQUIRE_ANY_TITLE` policy. -/
structure LeafParams where
  parse : List Char → Option Int
  now : Int
  recentHours : Nat
  requireTitle : Bool

/-- Sampled indices: the first five and (when more than five exist) the
last five, identity-deduplicated preserving order. -/
def sampleIdx (n : Nat) : List Nat :=
  dedupFirst ((List.range n).take 5 ++ (if 5 < n then (List.range n).drop (n - 5) else []))

/-- The sampled `<url>` nodes of a leaf. -/
def sampleNodes (ns : List XElem) : List XElem :=
  (sampleIdx ns.length).map (fun i => ns.getD i (XElem.mk [] [] []))

/-- A sampled entry counts as recent: it has a date text that parses, and
its age does not exceed the window (the source has no lower age bound). -/
def entryRecent (p : LeafParams) (nd : XElem) : Bool :=
  match (if (entryDateText nd).isEmpty then none else p.parse (entryDateText nd)) with
  | none => false
  | some t => decide (p.now - t ≤ 3600 * (p.recentHours : Int))

/-- The per-node loop of the leaf branch, accumulating
(recent count, latest parsed date, title-found flag). -/
def leafFold (p : LeafParams) : List XElem → Nat × Option Int × Bool → Nat × Option Int × Bool
  | [], acc => acc
  | nd :: rest, (rc, latest, tf) =>
    match (if (entryDateText nd).isEmpty then none else p.parse (entryDateText nd)) with
    | none => leafFold p rest (rc, latest, tf || (p.requireTitle && titleLike nd))
    | some t =>
      leafFold p rest
        ((if p.now - t ≤ 3600 * (p.recentHours : Int) then rc + 1 else rc),
         (match latest with
          | none => some t
          | some l => if l < t then some t else some l),
         tf || (p.requireTitle && titleLike nd))

/-- Outcome of the leaf branch: accepted (with the cached latest sampled
date), rejected for having no recent sampled item, or rejected for lacking
a title-like field. -/
inductive LeafVerdict where
  | accepted (latest : Option Int)
  | rejectedNoRecent
  | rejectedNoTitle
deriving DecidableEq, Repr

/-- The urlset (leaf) branch of
`selection_extraction_pipeline.expand_recursive`
(`recent_count >= 1 and (not SITEMAP_REQUIRE_ANY_TITLE or title_found)`). -/
def expand_recursive_leaf (p : LeafParams) (root : XElem) : LeafVerdict :=
  if 1 ≤ (leafFold p (sampleNodes (findallStar root "url".toList)) (0, none, false)).1 ∧
      (p.requireTitle = false ∨
        (leafFold p (sampleNodes (findallStar root "url".toList)) (0, none, false)).2.2 = true)
  then .accepted (leafFold p (sampleNodes (findallStar root "url".toList)) (0, none, false)).2.1
  else if (leafFold p (sampleNodes (findallStar root "url".toList)) (0, none, false)).1 = 0
  then .rejectedNoRecent
  else .rejectedNoTitle

/-- Whether a verdict is an acceptance. -/
def LeafVerdict.isAccepted : LeafVerdict → Bool
  | .accepted _ => true
  | _ => false

/-! ## C5: `_parse_llm_response` and `_normalize_targets` -/

/-- A JSON value (the result of `json.loads`). -/
inductive JVal where
  | jstr (s : String)
  | jnum (n : Int)
  | jbool (b : Bool)
  | jnull
  | jarr (xs : List JVal)
  | jobj (kvs : List (String × JVal))

/-- Key lookup in a JSON object (`dict.get`). -/
def jlookup (k : String) : List (String × JVal) → Option JVal
  | [] => none
  | (k0, v) :: r => if k0 = k then some v else jlookup k r

/-- The record `_parse_llm_response` builds (its non-`fields` entries kept
as raw JSON; `detectionMethod` is the constant string of the source). -/
structure LlmDetected where
  dtype : Option JVal
  item : Option JVal
  fields : List (String × JVal)
  confidence : Option JVal

/-- `selection_extraction_pipeline._parse_llm_response` applied to the
`json.loads` result of the extracted brace slice (`none` models both a
failed extraction and a parse exception).  The only validation performed:
the value is an object whose `fields` entry is an object. -/
def parse_llm_response (parsed : Option JVal) : Option LlmDetected :=
  match parsed with
  | some (JVal.jobj kvs) =>
    match jlookup "fields" kvs with
    | some (JVal.jobj fs) =>
      some { dtype := jlookup "type" kvs, item := jlookup "item" kvs,
             fields := fs, confidence := jlookup "confidence" kvs }
    | _ => none
  | _ => none

/-- Python `x or default` for an optional string (empty is falsy). -/
def pyOr (a : Option String) (d : String) : String :=
  match a with
  | some s => if s.isEmpty then d else s
  | none => d

/-- A `detectedSelectors` record of the stream object. -/
structure DetSel where
  item : Option String
  fields : List (String × JVal)
  detectionMethod : Option String

/-- One entry of `result.llmDetection.selectors`. -/
structure SelEntry where
  url : Option String
  detectedSelectors : Option DetSel

/-- The `result.cssFallback` record. -/
structure CssFallbackInfo where
  triggered : Bool
  success : Bool
  pageUrl : Option String
  sections : List JVal
  detectionMethod : Option String

/-- One stream result object, in the dict shape `_normalize_targets`
reads (`row.result`). -/
structure StreamResult where
  url : Option String
  domain : Option String
  selectors : List SelEntry
  cssFallback : Option CssFallbackInfo

/-- A scraping target (the dicts `_normalize_targets` emits). -/
inductive Target where
  | sitemap (site : String) (sitemapUrl : String) (itemTag : String)
            (fields : List (String × JVal)) (detectedBy : String)
  | css (site : String) (pageUrl : String) (sections : List JVal) (detectedBy : String)

/-- The fields map of a selector entry (`detected.get('fields') or ` the
empty dict). -/
def entryFields (it : SelEntry) : List (String × JVal) :=
  match it.detectedSelectors with
  | some d => d.fields
  | none => []

/-- The item tag of a selector entry (`detected.get('item') or 'url'`). -/
def entryItemTag (it : SelEntry) : String :=
  match it.detectedSelectors with
  | some d => pyOr d.item "url"
  | none => "url"

/-- The detection method of a selector entry
(`detected.get('detectionMethod', 'llm')`: the default fires only when the
key is absent). -/
def entryDetectedBy (it : SelEntry) : String :=
  match it.detectedSelectors with
  | some d => d.detectionMethod.getD "llm"
  | none => "llm"

/-- The per-entry sitemap target of `_normalize_targets`: built iff the
leaf url is truthy and the fields map non-empty. -/
def smFn (site : String) (it : SelEntry) : Option Target :=
  if !(pyOr it.url "").isEmpty && !(entryFields it).isEmpty then
    some (Target.sitemap site (pyOr it.url "") (entryItemTag it) (entryFields it)
      (entryDetectedBy it))
  else none

/-- The css target list of `_normalize_targets`. -/
def cssPart (site : String) : Option CssFallbackInfo → List Target
  | some cf =>
    if cf.triggered && cf.success then
      if !(pyOr cf.pageUrl site).isEmpty && !cf.sections.isEmpty then
        [Target.css site (pyOr cf.pageUrl site) cf.sections
          (cf.detectionMethod.getD "css_fallback")]
      else []
    else []
  | none => []

/-- `stream_scraping_pipeline._normalize_targets`. -/
def normalize_targets (st : StreamResult) : List Target :=
  let site := pyOr st.url (pyOr st.domain "")
  if site.isEmpty then []
  else (st.selectors.filterMap (smFn site)) ++ cssPart site st.cssFallback

/-- Whether a sitemap target's fields map contains a `url` mapping (the
claimed invariant; css targets are unconstrained). -/
def targetHasUrlField : Target → Bool
  | .sitemap _ _ _ fs _ => (jlookup "url" fs).isSome
  | .css _ _ _ _ => true

/-! ## C9: CSS section deduplication

`discover_selectors` (selector_scraper.py) versus `_css_selector_fallback`
(selection_extraction_pipeline.py).  The SHA-256 of the joined selector
strings is modelled by its preimage (same collision structure). -/

/-- An accepted CSS section candidate; the seven selector strings read by
the signatures, plus the confidence (numeric ordering only matters). -/
structure CssCand where
  sectionName : String
  title : String
  link : String
  date : String
  descrip : String
  author : String
  category : String
  ticker : String
  confidence : Int
deriving DecidableEq, Repr

/-- `selector_scraper._signature`: joined
title/link/date/description/author/category/ticker selectors. -/
def sigFull (c : CssCand) : String :=
  c.title ++ "|" ++ c.link ++ "|" ++ c.date ++ "|" ++ c.descrip ++ "|" ++
    c.author ++ "|" ++ c.category ++ "|" ++ c.ticker

/-- `selection_extraction_pipeline._signature`: joined title/link. -/
def sigTL (c : CssCand) : String := c.title ++ "|" ++ c.link

/-- Whether the insertion-ordered dict has a key. -/
def hasKey (seen : List (String × CssCand)) (s : String) : Bool :=
  seen.any (fun p => p.1 = s)

/-- Replace the value at a key when the new candidate's confidence is
strictly higher (key position preserved, as for a Python dict). -/
def replaceIfHigher : List (String × CssCand) → String → CssCand → List (String × CssCand)
  | [], _, _ => []
  | (s, e) :: rest, sig, c =>
    if s = sig then (s, if e.confidence < c.confidence then c else e) :: rest
    else (s, e) :: replaceIfHigher rest sig c

/-- The dedup loop of `selector_scraper.discover_selectors`: keep the
strictly-higher-confidence duplicate. -/
def discoverDedupAux : List CssCand → List (String × CssCand) → List (String × CssCand)
  | [], seen => seen
  | c :: r, seen =>
    discoverDedupAux r
      (if hasKey seen (sigFull c) then replaceIfHigher seen (sigFull c) c
       else seen ++ [(sigFull c, c)])

/-- `discover_selectors` deduplication (`list(seen.values())`). -/
def discover_selectors_dedup (cands : List CssCand) : List CssCand :=
  (discoverDedupAux cands []).map Prod.snd

/-- The dedup loop of
`selection_extraction_pipeline._css_selector_fallback`: first one wins. -/
def fallbackDedupAux : List CssCand → List (String × CssCand) → List (String × CssCand)
  | [], seen => seen
  | c :: r, seen =>
    fallbackDedupAux r (if hasKey seen (sigTL c) then seen else seen ++ [(sigTL c, c)])

/-- `_css_selector_fallback` deduplication (`list(seen.values())`). -/
def css_selector_fallback_dedup (cands : List CssCand) : List CssCand :=
  (fallbackDedupAux cands []).map Prod.snd

/-- Claim-side first-wins dedup: keep a candidate iff its title-link
signature was not seen before. -/
def keepFirstBySig (sigs : List String) : List CssCand → List CssCand
  | [] => []
  | c :: r =>
    if sigTL c ∈ sigs then keepFirstBySig sigs r
    else c :: keepFirstBySig (sigTL c :: sigs) r

/-! ## C8: `_classify_probe`, `_promote_host`, `_scrape_sitemap_target` -/

/-- The probe record built by `_http_probe` (`server` header, presence of a
`cf-ray` header, body snippet). -/
structure ProbeInfo where
  status : Nat
  serverHeader : String
  hasCfRay : Bool
  body : String

/-- The category of a classified probe (subtype/retryable fields of the
source dropped: the caller only tests the category). -/
inductive ProbeClass where
  | accessBlocked
  | httpError
  | httpRedirect
deriving DecidableEq, Repr

/-- `stream_scraping_pipeline._classify_probe`. -/
def classify_probe : Option ProbeInfo → Option ProbeClass
  | none => none
  | some pr =>
    if isInfixList "cloudflare".toList (lowerList pr.serverHeader.toList) || pr.hasCfRay
        || isInfixList "attention required".toList (lowerList pr.body.toList) then
      some .accessBlocked
    else if pr.status = 429 then some .httpError
    else if pr.status = 401 ∨ pr.status = 403 then some .httpError
    else if 300 ≤ pr.status ∧ pr.status < 400 then some .httpRedirect
    else none

/-- One fetch attempt of a scrape, in order. -/
inductive FetchAttempt where
  | direct
  | browser
deriving DecidableEq, Repr

/-- The effects one `_scrape_sitemap_target` call depends on: the direct
`expand_sitemap_entries_recent` result (`none` = raised; entries reduced to
their url strings), the HTTP probe, and the entries a browser fetch of the
leaf would parse. -/
structure SmOracle where
  directEntries : Option (List String)
  probe : Option ProbeInfo
  browserEntries : List String

/-- `_promote_host`: add to the process-wide promoted set (ignoring an
empty host), never removing. -/
def promoteHost (promoted : List String) (host : String) : List String :=
  if host = "" then promoted
  else if host ∈ promoted then promoted else promoted ++ [host]

/-- Result of one scrape call: entries, the updated promoted set, and the
ordered fetch attempts performed. -/
structure ScrapeOutcome where
  entries : List String
  promoted : List String
  attempts : List FetchAttempt

/-- `stream_scraping_pipeline._scrape_sitemap_target`. -/
def scrape_sitemap_target (promoted : List String) (host : String) (o : SmOracle) :
    ScrapeOutcome :=
  if host ≠ "" ∧ host ∈ promoted then
    if !o.browserEntries.isEmpty then
      { entries := o.browserEntries, promoted := promoted, attempts := [.browser] }
    else
      { entries := (o.directEntries.getD []).filter (fun u => u ≠ ""),
        promoted := promoted, attempts := [.browser, .direct] }
  else
    if !((o.directEntries.getD []).filter (fun u => u ≠ "")).isEmpty then
      { entries := (o.directEntries.getD []).filter (fun u => u ≠ ""),
        promoted := promoted, attempts := [.direct] }
    else
      match classify_probe o.probe with
      | some _ =>
        if !o.browserEntries.isEmpty then
          { entries := o.browserEntries, promoted := promoteHost promoted host,
            attempts := [.direct, .browser] }
        else
          { entries := (o.directEntries.getD []).filter (fun u => u ≠ ""),
            promoted := promoted, attempts := [.direct, .browser] }
      | none =>
        { entries := (o.directEntries.getD []).filter (fun u => u ≠ ""),
          promoted := promoted, attempts := [.direct] }

/-- A whole run's sitemap scrapes threading the process-wide promoted set;
returns the final promoted set. -/
def run_scrapes (promoted : List String) : List (String × SmOracle) → List String
  | [] => promoted
  | (h, o) :: r => run_scrapes (scrape_sitemap_target promoted h o).promoted r

/-! ## C1: `Writer` (queue, batch buffer, close) -/

/-- Events of a Writer run: a producer `submit`, one iteration of the
`_run` loop (its top-of-loop stop check, a `q.get` that either takes a
record or times out empty, then the flush check at time `now`), and the
`close()` sequence `q.join(); _stop.set()` (legal only once the queue has
fully drained, which is when `join` returns). -/
inductive WEvent where
  | submit (r : Nat)
  | iter (now : Int) (got : Bool)
  | closeJoinStop
deriving DecidableEq, Repr

/-- Writer state: pending queue, the thread-local batch buffer, the records
durably written to the file, the last flush instant, the `_stop` event, the
thread having exited, and `close()` having been called. -/
structure WState where
  queue : List Nat
  buffer : List Nat
  file : List Nat
  lastFlush : Int
  stopped : Bool
  exited : Bool
  closed : Bool
deriving DecidableEq, Repr

/-- The flush decision and action of `_run` (batch size 50, flush interval
0.5 s; times in milliseconds). -/
def flushCheck (s : WState) (now : Int) : WState :=
  if 50 ≤ s.buffer.length ∨ (s.buffer ≠ [] ∧ 500 ≤ now - s.lastFlush) then
    { s with file := s.file ++ s.buffer, buffer := [], lastFlush := now }
  else s

/-- One event of the Writer semantics (`none` = the event is not enabled in
this state: a `get` on an empty queue, an iteration of an exited thread, a
submit after close, or a close before the queue drained). -/
def wstep (s : WState) : WEvent → Option WState
  | .submit r => if s.closed then none else some { s with queue := s.queue ++ [r] }
  | .iter now got =>
    if s.exited then none
    else if s.stopped then some { s with exited := true }
    else
      match got, s.queue with
      | true, [] => none
      | true, r :: rest =>
        some (flushCheck { s with queue := rest, buffer := s.buffer ++ [r] } now)
      | false, _ => some (flushCheck s now)
  | .closeJoinStop =>
    if s.queue = [] ∧ !s.closed then some { s with stopped := true, closed := true }
    else none

/-- Initial Writer state (thread started at time 0 with a fresh file). -/
def winit : WState :=
  { queue := [], buffer := [], file := [], lastFlush := 0,
    stopped := false, exited := false, closed := false }

/-- Run a Writer event sequence from the initial state. -/
def runWriter : List WEvent → Option WState
  | evs => evs.foldl (fun acc e => acc.bind (fun s => wstep s e)) (some winit)

/-! ## C7: `StatsCollector` summary snapshot -/

/-- File-system operations the snapshot writer performs on the summary
path (contents as character lists). -/
inductive FsOp where
  | openTrunc
  | writeAll (s : List Char)
deriving DecidableEq, Repr

/-- The operations of `write_summary_snapshot` on the summary path:
`open(self.summary_path, 'w')` (truncation) followed by `json.dump`
(a full write).  No temporary file and no rename are involved. -/
def snapshotOps (doc : List Char) : List FsOp := [.openTrunc, .writeAll doc]

/-- Effect of one operation on the file content. -/
def applyOp (content : List Char) : FsOp → List Char
  | .openTrunc => []
  | .writeAll s => content ++ s

/-- Worker for the observable contents after each operation. -/
def observeAux (content : List Char) : List FsOp → List (List Char)
  | [] => []
  | op :: r =>
    let c := applyOp content op
    c :: observeAux c r

/-- The file contents a polling consumer can observe while an operation
sequence runs against a file holding `old`. -/
def observables (old : List Char) (ops : List FsOp) : List (List Char) :=
  old :: observeAux old ops

/-- The snapshot pacing state of `StatsCollector`:
`total_sites_processed` and `_last_snapshot_sites_written`. -/
structure StatsState where
  totalSites : Nat
  lastSnapshot : Nat
deriving DecidableEq, Repr

/-- `StatsCollector.maybe_write_summary_snapshot`: whether a snapshot is
written and the updated pacing state. -/
def maybe_write_summary_snapshot (interval : Int) (st : StatsState) : Bool × StatsState :=
  if interval ≤ 0 then (false, st)
  else if (st.lastSnapshot : Int) + interval ≤ (st.totalSites : Int) then
    (true, { st with lastSnapshot := st.totalSites })
  else (false, st)

/-! ## Concrete scenarios used by the counterexample / bug theorems -/

/-- A legal Writer schedule: one record is submitted and taken into the
batch buffer 100 ms after start (`task_done` lets `q.join` return), then
`close()` runs `q.join(); _stop.set()`, and the next loop iteration sees
the stop event and exits without having flushed. -/
def lossTrace : List WEvent :=
  [WEvent.submit 7, WEvent.iter 100 true, WEvent.closeJoinStop, WEvent.iter 300 false]

/-- A detector record whose fields map lacks a `url` mapping. -/
def noUrlDetSel : DetSel :=
  { item := none, fields := [("date", JVal.jstr "lastmod")], detectionMethod := some "llm" }

/-- A stream object carrying that record for one leaf sitemap. -/
def noUrlStream : StreamResult :=
  { url := some "https://ex.com", domain := none,
    selectors := [{ url := some "https://ex.com/leaf.xml",
                    detectedSelectors := some noUrlDetSel }],
    cssFallback := none }

/-- The sitemap target `_normalize_targets` builds from `noUrlStream`. -/
def noUrlTarget : Target :=
  Target.sitemap "https://ex.com" "https://ex.com/leaf.xml" "url"
    [("date", JVal.jstr "lastmod")] "llm"

/-- A robots fetch world: plain HTTP answers 401, browser retry enabled,
and a browser fetch would render a non-empty robots body. -/
def world401 : RobotsWorld :=
  { http := some { status := 401, text := "" }, retryEnabled := true,
    browser := BrowserOutcome.rendered "User-agent: *" }

/-- Two CSS section candidates with identical selectors and different
confidences (the second, later one is more confident). -/
def candLow : CssCand :=
  { sectionName := "Top stories", title := "li > h3", link := "li > h3 > a",
    date := "", descrip := "", author := "", category := "", ticker := "",
    confidence := 5 }

/-- The higher-confidence duplicate of `candLow`. -/
def candHigh : CssCand := { candLow with sectionName := "Top stories b", confidence := 9 }

/-! # Theorems -/

/-- The acceptance test of `filter_by_date` in closed form. -/
theorem ageOk_iff (h : Nat) (age : Int) :
    ageOk h age = true ↔ (-86400 ≤ age ∧ age ≤ 3600 * (h : Int)) := by
  unfold ageOk
  have hpos : (0 : Int) ≤ 3600 * (h : Int) := by positivity
  split_ifs with hneg
  · simp only [decide_eq_true_eq]
    constructor
    · intro hm; omega
    · intro hm; omega
  · simp only [decide_eq_true_eq]
    constructor
    · intro hm; omega
    · intro hm; exact hm.2

/-- C3: the date filter extracts the URL date trying the six patterns in
the claimed priority order (year=/date= query params, compact `YYYYMMDD`,
dashed `YYYY-MM-DD`, path `/YYYY/MM/DD/`, `yyyy=&mm=&dd=` query, month-only
`YYYY-MM` with the day inferred as today for the current year-month and the
last day of the month otherwise), and accepts iff the chosen date (URL date
first, else the XML lastmod) is at most `h` hours old, tolerating futures
up to 24 hours, rejecting farther futures and older dates, and accepting
conservatively when no date is found at all. -/
theorem date_filter_spec (u : List Char) (h : Nat) (lm : Option Int) (now : NowTime) :
    extract_date_from_url now u =
      firstSome [stageYearParam u, stageDateParam u, stageCompact8 u, stageDashed u,
                 stagePathDate u, stageYmdQuery u, stageYearMonth now u] ∧
    (filter_by_date u h true lm now = true ↔
      (chosenTs u lm now = none ∨
        ∃ t, chosenTs u lm now = some t ∧
          -86400 ≤ nowSecs now - t ∧ nowSecs now - t ≤ 3600 * (h : Int))) := by
  constructor
  · cases h0 : stageYearParam u with
    | some d => simp [extract_date_from_url, firstSome, h0]
    | none =>
      cases h1 : stageDateParam u with
      | some d => simp [extract_date_from_url, firstSome, h0, h1]
      | none =>
        cases h2 : stageCompact8 u with
        | some d => simp [extract_date_from_url, firstSome, h0, h1, h2]
        | none =>
          cases h3 : stageDashed u with
          | some d => simp [extract_date_from_url, firstSome, h0, h1, h2, h3]
          | none =>
            cases h4 : stagePathDate u with
            | some d => simp [extract_date_from_url, firstSome, h0, h1, h2, h3, h4]
            | none =>
              cases h5 : stageYmdQuery u with
              | some d =>
                simp [extract_date_from_url, firstSome, h0, h1, h2, h3, h4, h5]
              | none =>
                simp only [extract_date_from_url, firstSome, h0, h1, h2, h3, h4, h5]
                cases stageYearMonth now u <;> rfl
  · cases hex : extract_date_from_url now u with
    | some d => simp [filter_by_date, chosenTs, hex, ageOk_iff]
    | none =>
      cases lm with
      | some t => simp [filter_by_date, chosenTs, hex, ageOk_iff]
      | none => simp [filter_by_date, chosenTs, hex]

/-- C1 (bug evaluation): a legal schedule in which `submit` returned, the
record was moved from the queue into the batch buffer (`q.join` can then
return), `close()` set the stop event, and the writer thread exited on the
stop check with the flush condition still false — `close()` completes with
the record absent from the file.  The claim (and the spec) require every
such record to be in the file once `close()` returns. -/
theorem writer_close_loses_buffered_record :
    runWriter lossTrace =
      some { queue := [], buffer := [7], file := [], lastFlush := 0,
             stopped := true, exited := true, closed := true } ∧
    WEvent.submit 7 ∈ lossTrace := by
  constructor
  · rfl
  · simp [lossTrace]

/-- C7 (counterexample): the summary snapshot is written by truncating the
summary path in place and then writing, so a polling consumer can observe
the empty intermediate content, which is neither the previous document nor
the new one — refuting write-to-temp-then-rename atomicity. -/
theorem summary_snapshot_not_atomic :
    ¬ (∀ (old doc obs : List Char), obs ∈ observables old (snapshotOps doc) →
        obs = old ∨ obs = doc) := by
  intro hcl
  have h2 := hcl "OLDDOC".toList "NEWDOC".toList [] (by decide)
  rcases h2 with h2 | h2 <;> exact absurd h2 (by decide)

/-- C7 (amended): each snapshot rewrites the summary file in place — the
final content is exactly the new document whatever was there before
(rewrite, not append) — with the truncated empty state observable
mid-rewrite, and `maybe_write_summary_snapshot` triggers a rewrite exactly
when the interval is positive and at least `interval` sites completed since
the last snapshot, then records the new site count. -/
theorem summary_snapshot_spec (interval : Int) (st : StatsState) (old doc : List Char) :
    (snapshotOps doc).foldl applyOp old = doc ∧
    [] ∈ observables old (snapshotOps doc) ∧
    ((maybe_write_summary_snapshot interval st).1 = true ↔
      0 < interval ∧ (st.lastSnapshot : Int) + interval ≤ (st.totalSites : Int)) ∧
    (maybe_write_summary_snapshot interval st).2.lastSnapshot =
      (if (maybe_write_summary_snapshot interval st).1 then st.totalSites
       else st.lastSnapshot) ∧
    (maybe_write_summary_snapshot interval st).2.totalSites = st.totalSites := by
  refine ⟨?_, ?_, ?_, ?_, ?_⟩
  · simp [snapshotOps, applyOp]
  · simp [observables, snapshotOps, observeAux, applyOp]
  · unfold maybe_write_summary_snapshot
    split
    · simp; omega
    · split <;> simp <;> omega
  · unfold maybe_write_summary_snapshot
    split
    · simp
    · split <;> simp
  · unfold maybe_write_summary_snapshot
    split
    · rfl
    · split <;> rfl

/-- C6 (counterexample): a 401 response with browser retry enabled and a
browser that would render a non-empty robots body — the source performs no
browser fetch at all (its trigger is 3xx or 403 only), refuting the claimed
401 trigger. -/
theorem robots_retry_401_counterexample :
    ¬ (∀ (w : RobotsWorld) (r : HttpResp), w.http = some r →
        ((300 ≤ r.status ∧ r.status < 400) ∨ r.status = 401 ∨ r.status = 403) →
        w.retryEnabled = true →
        1 ≤ (fetch_robots_txt_meta w).browserFetches) := by
  intro hcl
  have h2 := hcl world401 { status := 401, text := "" } rfl (Or.inr (Or.inl rfl)) rfl
  exact absurd h2 (by decide)

/-- C6 (amended): per call, at most one headless-browser fetch is
performed, and one happens only when the plain response was a 3xx or a 403
and retry is enabled; in that case a non-blank rendered body is used as the
result text with status `bypassed`; every other outcome is reported as a
status string with empty text, never thrown (the embedding is total). -/
theorem robots_fetch_spec (w : RobotsWorld) :
    (fetch_robots_txt_meta w).browserFetches ≤ 1 ∧
    (1 ≤ (fetch_robots_txt_meta w).browserFetches →
      ∃ r, w.http = some r ∧ ((300 ≤ r.status ∧ r.status < 400) ∨ r.status = 403) ∧
        w.retryEnabled = true) ∧
    (∀ (r : HttpResp) (body : String), w.http = some r →
      ((300 ≤ r.status ∧ r.status < 400) ∨ r.status = 403) →
      w.retryEnabled = true → w.browser = BrowserOutcome.rendered body →
      strBlank body = false →
      fetch_robots_txt_meta w =
        { text := body, attempted := true, status := "bypassed", browserFetches := 1 }) ∧
    ((fetch_robots_txt_meta w).text ≠ "" →
      (fetch_robots_txt_meta w).status = "bypassed" ∨
      (fetch_robots_txt_meta w).status = "not_needed") := by
  obtain ⟨http, retry, browser⟩ := w
  cases http with
  | none => simp [fetch_robots_txt_meta]
  | some r =>
    by_cases htr : (300 ≤ r.status ∧ r.status < 400) ∨ r.status = 403
    · cases retry with
      | false => simp [fetch_robots_txt_meta, htr]
      | true =>
        cases browser with
        | importError => simp [fetch_robots_txt_meta, htr]
        | launchError => simp [fetch_robots_txt_meta, htr]
        | gotoError =>
          refine ⟨by simp [fetch_robots_txt_meta, htr], ?_, ?_, ?_⟩
          · intro _; exact ⟨r, rfl, htr, rfl⟩
          · intro r0 body hr0 _ _ hb; exact absurd hb (by simp)
          · simp [fetch_robots_txt_meta, htr]
        | rendered body =>
          by_cases hblank : strBlank body = true
          · refine ⟨by simp [fetch_robots_txt_meta, htr, hblank], ?_, ?_, ?_⟩
            · intro _; exact ⟨r, rfl, htr, rfl⟩
            · intro r0 body0 hr0 _ _ hb0 hnb
              cases hb0
              exact absurd hblank (by simp [hnb])
            · simp [fetch_robots_txt_meta, htr, hblank]
          · have hblank0 : strBlank body = false := by
              cases hsb : strBlank body
              · rfl
              · exact absurd hsb hblank
            refine ⟨by simp [fetch_robots_txt_meta, htr, hblank0], ?_, ?_, ?_⟩
            · intro _; exact ⟨r, rfl, htr, rfl⟩
            · intro r0 body0 hr0 _ _ hb0 hnb
              cases hb0
              simp [fetch_robots_txt_meta, htr, hblank0]
            · simp [fetch_robots_txt_meta, htr, hblank0]
    · by_cases h4 : 400 ≤ r.status
      · refine ⟨by simp [fetch_robots_txt_meta, htr, h4], ?_, ?_, ?_⟩
        · intro hge; exact absurd hge (by simp [fetch_robots_txt_meta, htr, h4])
        · intro r0 body hr0 htr0 _ _ _
          cases hr0
          exact absurd htr0 htr
        · simp [fetch_robots_txt_meta, htr, h4]
      · refine ⟨by simp [fetch_robots_txt_meta, htr, h4], ?_, ?_, ?_⟩
        · intro hge; exact absurd hge (by simp [fetch_robots_txt_meta, htr, h4])
        · intro r0 body hr0 htr0 _ _ _
          cases hr0
          exact absurd htr0 htr
        · simp [fetch_robots_txt_meta, htr, h4]

/-- C6 (witness): a 403 with retry enabled and a rendered non-empty body is
bypassed with exactly one browser fetch. -/
theorem robots_fetch_spec_witness :
    fetch_robots_txt_meta
        { http := some { status := 403, text := "" }, retryEnabled := true,
          browser := BrowserOutcome.rendered "User-agent: *" } =
      { text := "User-agent: *", attempted := true, status := "bypassed",
        browserFetches := 1 } :=
  (robots_fetch_spec _).2.2.1 { status := 403, text := "" } "User-agent: *" rfl
    (Or.inr rfl) rfl rfl (by decide)

/-- Unfolding of the leaf loop on a dateless node. -/
theorem leafFold_cons_none (p : LeafParams) (nd : XElem) (rest : List XElem)
    (rc : Nat) (lat : Option Int) (tf : Bool)
    (h : (if (entryDateText nd).isEmpty then none
        else p.parse (entryDateText nd)) = (none : Option Int)) :
    leafFold p (nd :: rest) (rc, lat, tf) =
      leafFold p rest (rc, lat, tf || (p.requireTitle && titleLike nd)) := by
  rw [leafFold, h]

/-- Unfolding of the leaf loop on a dated node. -/
theorem leafFold_cons_some (p : LeafParams) (nd : XElem) (rest : List XElem)
    (rc : Nat) (lat : Option Int) (tf : Bool) (t : Int)
    (h : (if (entryDateText nd).isEmpty then none
        else p.parse (entryDateText nd)) = some t) :
    leafFold p (nd :: rest) (rc, lat, tf) =
      leafFold p rest
        ((if p.now - t ≤ 3600 * (p.recentHours : Int) then rc + 1 else rc),
         (match lat with
          | none => some t
          | some l => if l < t then some t else some l),
         tf || (p.requireTitle && titleLike nd)) := by
  rw [leafFold, h]

/-- The recent counter of the leaf loop counts the recent sampled
entries. -/
theorem leafFold_fst (p : LeafParams) :
    ∀ (l : List XElem) (rc : Nat) (lat : Option Int) (tf : Bool),
      (leafFold p l (rc, lat, tf)).1 = rc + l.countP (entryRecent p) := by
  intro l
  induction l with
  | nil => intro rc lat tf; simp [leafFold]
  | cons nd rest ih =>
    intro rc lat tf
    cases hdt : (if (entryDateText nd).isEmpty then none
        else p.parse (entryDateText nd)) with
    | none =>
      rw [leafFold_cons_none p nd rest rc lat tf hdt, ih]
      have hrec : entryRecent p nd = false := by
        unfold entryRecent
        rw [hdt]
      rw [List.countP_cons, hrec]
      simp
    | some t =>
      rw [leafFold_cons_some p nd rest rc lat tf t hdt, ih]
      by_cases hcond : p.now - t ≤ 3600 * (p.recentHours : Int)
      · rw [if_pos hcond]
        have hrec : entryRecent p nd = true := by
          unfold entryRecent
          rw [hdt]
          simpa using hcond
        rw [List.countP_cons, hrec]
        simp
        omega
      · rw [if_neg hcond]
        have hrec : entryRecent p nd = false := by
          unfold entryRecent
          rw [hdt]
          simpa using hcond
        rw [List.countP_cons, hrec]
        simp

/-- The title flag of the leaf loop is an existential scan over the
sampled entries (gated by the policy flag). -/
theorem leafFold_tf (p : LeafParams) :
    ∀ (l : List XElem) (rc : Nat) (lat : Option Int) (tf : Bool),
      (leafFold p l (rc, lat, tf)).2.2 =
        (tf || (p.requireTitle && l.any titleLike)) := by
  intro l
  induction l with
  | nil => intro rc lat tf; simp [leafFold]
  | cons nd rest ih =>
    intro rc lat tf
    cases hdt : (if (entryDateText nd).isEmpty then none
        else p.parse (entryDateText nd)) with
    | none =>
      rw [leafFold_cons_none p nd rest rc lat tf hdt, ih]
      rw [List.any_cons]
      cases p.requireTitle <;> cases tf <;> cases titleLike nd <;> simp
    | some t =>
      rw [leafFold_cons_some p nd rest rc lat tf t hdt, ih]
      rw [List.any_cons]
      cases p.requireTitle <;> cases tf <;> cases titleLike nd <;> simp

/-- C2: the urlset branch of `expand_recursive` samples up to the 5
earliest and 5 latest url entries (overlap deduplicated), reads their
lastmod or namespaced publication date, and accepts the leaf iff some
sampled entry has a parseable date within the recency window AND (when the
require-title policy is on) some sampled entry has a nested title-like tag
with non-empty text; otherwise it rejects with the no-recent-items reason
when no sampled entry is recent, and the distinct no-title reason
otherwise. -/
theorem leaf_sitemap_acceptance (p : LeafParams) (root : XElem) :
    ((expand_recursive_leaf p root).isAccepted = true ↔
      ((∃ nd ∈ sampleNodes (findallStar root "url".toList), entryRecent p nd = true) ∧
        (p.requireTitle = true →
          ∃ nd ∈ sampleNodes (findallStar root "url".toList), titleLike nd = true))) ∧
    (expand_recursive_leaf p root = LeafVerdict.rejectedNoRecent ↔
      ¬ ∃ nd ∈ sampleNodes (findallStar root "url".toList), entryRecent p nd = true) ∧
    (expand_recursive_leaf p root = LeafVerdict.rejectedNoTitle ↔
      ((∃ nd ∈ sampleNodes (findallStar root "url".toList), entryRecent p nd = true) ∧
        p.requireTitle = true ∧
        ¬ ∃ nd ∈ sampleNodes (findallStar root "url".toList), titleLike nd = true)) := by
  have hfst := leafFold_fst p (sampleNodes (findallStar root "url".toList)) 0 none false
  have htf := leafFold_tf p (sampleNodes (findallStar root "url".toList)) 0 none false
  rw [Nat.zero_add] at hfst
  rw [Bool.false_or] at htf
  have hex1 : (∃ nd ∈ sampleNodes (findallStar root "url".toList),
      entryRecent p nd = true) ↔
      0 < (sampleNodes (findallStar root "url".toList)).countP (entryRecent p) :=
    (List.countP_pos_iff).symm
  have hex2 : (∃ nd ∈ sampleNodes (findallStar root "url".toList), titleLike nd = true) ↔
      (sampleNodes (findallStar root "url".toList)).any titleLike = true :=
    (List.any_eq_true).symm
  unfold expand_recursive_leaf
  split_ifs with h1 h2
  · obtain ⟨h1a, h1b⟩ := h1
    refine ⟨?_, ?_, ?_⟩
    · simp only [LeafVerdict.isAccepted, true_iff]
      constructor
      · rw [hex1]; omega
      · intro hreq
        rcases h1b with h1b | h1b
        · rw [hreq] at h1b; exact absurd h1b (by simp)
        · rw [htf, hreq, Bool.true_and] at h1b
          exact hex2.mpr h1b
    · constructor
      · intro hv; exact absurd hv (by simp)
      · intro hno
        exfalso
        apply hno
        rw [hex1]
        omega
    · constructor
      · intro hv; exact absurd hv (by simp)
      · rintro ⟨-, hreq, hnt⟩
        exfalso
        apply hnt
        rcases h1b with h1b | h1b
        · rw [hreq] at h1b; exact absurd h1b (by simp)
        · rw [htf, hreq, Bool.true_and] at h1b
          exact hex2.mpr h1b
  · refine ⟨?_, ?_, ?_⟩
    · simp only [LeafVerdict.isAccepted, Bool.false_eq_true, false_iff]
      rintro ⟨hrec, -⟩
      rw [hex1] at hrec
      omega
    · simp only [true_iff]
      intro hrec
      rw [hex1] at hrec
      omega
    · constructor
      · intro hv; exact absurd hv (by simp)
      · rintro ⟨hrec, -, -⟩
        rw [hex1] at hrec
        omega
  · refine ⟨?_, ?_, ?_⟩
    · simp only [LeafVerdict.isAccepted, Bool.false_eq_true, false_iff]
      rintro ⟨hrec, hti⟩
      apply h1
      refine ⟨by rw [hex1] at hrec; omega, ?_⟩
      cases hreq : p.requireTitle with
      | false => exact Or.inl rfl
      | true =>
        refine Or.inr ?_
        rw [htf, hreq, Bool.true_and]
        exact hex2.mp (hti hreq)
    · constructor
      · intro hv; exact absurd hv (by simp)
      · intro hno
        exfalso
        apply hno
        rw [hex1]
        omega
    · simp only [true_iff]
      refine ⟨by rw [hex1]; omega, ?_, ?_⟩
      · cases hreq : p.requireTitle with
        | true => rfl
        | false =>
          exfalso
          apply h1
          exact ⟨by omega, Or.inl hreq⟩
      · intro hti
        apply h1
        refine ⟨by omega, Or.inr ?_⟩
        rw [htf]
        cases hreq : p.requireTitle with
        | false =>
          exfalso
          apply h1
          exact ⟨by omega, Or.inl hreq⟩
        | true =>
          rw [Bool.true_and]
          exact hex2.mp hti

/-- C5 (counterexample): `_parse_llm_response` accepts a detector response
whose fields map is `date -> lastmod` only (no `url` mapping, no safe-path
check), and `_normalize_targets` then constructs a sitemap ExtractionTarget
from it — refuting both the claimed validation and the claimed
invariant. -/
theorem normalize_targets_missing_url_counterexample :
    ¬ (∀ (st : StreamResult) (t : Target), t ∈ normalize_targets st →
        targetHasUrlField t = true) := by
  intro hcl
  have hmem : noUrlTarget ∈ normalize_targets noUrlStream := by
    have he : normalize_targets noUrlStream = [noUrlTarget] := rfl
    rw [he]
    exact List.mem_singleton.mpr rfl
  have h2 := hcl noUrlStream noUrlTarget hmem
  exact Bool.noConfusion (show (false : Bool) = true from h2)

/-- A sitemap target is never an element of the css target list. -/
theorem sitemap_not_mem_cssPart (site0 : String) (cfo : Option CssFallbackInfo)
    (site leaf tag : String) (fs : List (String × JVal)) (db : String) :
    Target.sitemap site leaf tag fs db ∉ cssPart site0 cfo := by
  cases cfo with
  | none => simp [cssPart]
  | some cf =>
    simp only [cssPart]
    split_ifs with h1 h2
    · intro hmem
      exact Target.noConfusion (List.mem_singleton.mp hmem)
    · exact List.not_mem_nil _
    · exact List.not_mem_nil _

/-- Characterization of the sitemap target built from one selector
record. -/
theorem smFn_eq_sitemap_iff (site0 : String) (it : SelEntry) (site leaf tag : String)
    (fs : List (String × JVal)) (db : String) :
    smFn site0 it = some (Target.sitemap site leaf tag fs db) ↔
      (site = site0 ∧ leaf = pyOr it.url "" ∧ leaf.isEmpty = false ∧
        fs = entryFields it ∧ fs ≠ [] ∧ tag = entryItemTag it ∧
        db = entryDetectedBy it) := by
  unfold smFn
  split_ifs with hc
  · rw [Bool.and_eq_true, Bool.not_eq_true', Bool.not_eq_true'] at hc
    constructor
    · intro hf
      have h2 := Option.some.inj hf
      rw [Target.sitemap.injEq] at h2
      obtain ⟨ha, hb, hcc, hd, he⟩ := h2
      refine ⟨ha.symm, hb.symm, ?_, hd.symm, ?_, hcc.symm, he.symm⟩
      · rw [hb] at hc
        exact hc.1
      · rw [hd] at hc
        intro hnil
        rw [hnil] at hc
        simp at hc
    · rintro ⟨ha, hb, -, hd, -, hcc, he⟩
      rw [ha, hb, hcc, hd, he]
  · constructor
    · intro hf; exact absurd hf (by simp)
    · rintro ⟨-, hb, hlne, hd, hfne, -, -⟩
      exfalso
      apply hc
      rw [Bool.and_eq_true, Bool.not_eq_true', Bool.not_eq_true']
      constructor
      · rw [← hb]; exact hlne
      · rw [← hd]
        cases hE : fs.isEmpty
        · rfl
        · exact absurd (List.isEmpty_iff.mp hE) hfne

/-- C5 (amended): `_parse_llm_response` accepts exactly the responses whose
extracted JSON value is an object with an object-valued `fields` entry
(emptiness, a `url` mapping and path safety are NOT checked), and
`_normalize_targets` builds a sitemap target exactly from the selector
records with a truthy leaf url and a non-empty fields map, copying that
fields map unchanged — so a target built from a record without a `url`
mapping keeps lacking it. -/
theorem normalize_targets_spec (parsed : Option JVal) (st : StreamResult)
    (site leaf tag : String) (fs : List (String × JVal)) (db : String) :
    ((parse_llm_response parsed).isSome = true ↔
      ∃ kvs fsx, parsed = some (JVal.jobj kvs) ∧
        jlookup "fields" kvs = some (JVal.jobj fsx)) ∧
    (Target.sitemap site leaf tag fs db ∈ normalize_targets st ↔
      (site = pyOr st.url (pyOr st.domain "") ∧ site.isEmpty = false ∧
        ∃ it ∈ st.selectors, leaf = pyOr it.url "" ∧ leaf.isEmpty = false ∧
          fs = entryFields it ∧ fs ≠ [] ∧ tag = entryItemTag it ∧
          db = entryDetectedBy it)) := by
  constructor
  · cases parsed with
    | none => simp [parse_llm_response]
    | some v =>
      cases v with
      | jobj kvs =>
        cases hjl : jlookup "fields" kvs with
        | none => simp [parse_llm_response, hjl]
        | some fv =>
          cases fv <;> simp [parse_llm_response, hjl]
      | jstr s => simp [parse_llm_response]
      | jnum n => simp [parse_llm_response]
      | jbool b => simp [parse_llm_response]
      | jnull => simp [parse_llm_response]
      | jarr xs => simp [parse_llm_response]
  · constructor
    · intro hmem
      rw [normalize_targets] at hmem
      cases hsite : (pyOr st.url (pyOr st.domain "")).isEmpty with
      | true =>
        rw [hsite] at hmem
        simp only [if_true] at hmem
        exact absurd hmem (List.not_mem_nil _)
      | false =>
        rw [hsite] at hmem
        simp only [Bool.false_eq_true, if_false] at hmem
        rcases List.mem_append.mp hmem with hmem | hmem
        · rcases List.mem_filterMap.mp hmem with ⟨it, hit, hf⟩
          rcases (smFn_eq_sitemap_iff _ _ _ _ _ _ _).mp hf with
            ⟨hs, hl, hlne, hfld, hfne, ht, hdb⟩
          exact ⟨hs, hs ▸ hsite, it, hit, hl, hlne, hfld, hfne, ht, hdb⟩
        · exact absurd hmem (sitemap_not_mem_cssPart _ _ _ _ _ _ _)
    · rintro ⟨hs, hne, it, hit, hl, hlne, hfld, hfne, ht, hdb⟩
      rw [normalize_targets]
      rw [hs] at hne
      rw [hne]
      simp only [Bool.false_eq_true, if_false]
      refine List.mem_append.mpr (Or.inl (List.mem_filterMap.mpr ⟨it, hit, ?_⟩))
      exact (smFn_eq_sitemap_iff _ _ _ _ _ _ _).mpr ⟨hs, hl, hlne, hfld, hfne, ht, hdb⟩

/-- `_promote_host` only adds. -/
theorem promoteHost_mono (x : String) (promoted : List String) (host : String)
    (hx : x ∈ promoted) : x ∈ promoteHost promoted host := by
  unfold promoteHost
  split_ifs with h1 h2
  · exact hx
  · exact hx
  · exact List.mem_append.mpr (Or.inl hx)

/-- One scrape never removes a host from the promoted set. -/
theorem scrape_promoted_mono (promoted : List String) (host : String) (o : SmOracle) :
    ∀ x ∈ promoted, x ∈ (scrape_sitemap_target promoted host o).promoted := by
  intro x hx
  unfold scrape_sitemap_target
  split_ifs with h1 h2 h3 h4
  · exact hx
  · exact hx
  · exact hx
  · cases hcp : classify_probe o.probe with
    | some c => exact promoteHost_mono x promoted host hx
    | none => exact hx
  · cases hcp : classify_probe o.probe with
    | some c => exact hx
    | none => exact hx

/-- C8: proxy-promotion invariant.  A host enters the promoted set only
when (in that very call) it was not yet promoted, the direct fetch yielded
no usable entries, the HTTP probe classified the failure
(cloudflare/WAF signature, 429, 401/403, or a 3xx redirect), and the single
browser-rendered retry returned entries; the set is add-only within a call
and across a whole run; a promoted host is fetched browser-first with at
most one direct fallback, while a non-promoted host is fetched
direct-first. -/
theorem proxy_promotion_spec (promoted : List String) (host : String) (o : SmOracle)
    (promoted0 : List String) (reqs : List (String × SmOracle)) :
    (∀ x ∈ promoted, x ∈ (scrape_sitemap_target promoted host o).promoted) ∧
    (∀ x ∈ (scrape_sitemap_target promoted host o).promoted,
      x ∈ promoted ∨
        (x = host ∧ x ∉ promoted ∧
          (o.directEntries.getD []).filter (fun u => u ≠ "") = [] ∧
          (classify_probe o.probe).isSome = true ∧ o.browserEntries ≠ [])) ∧
    (host ≠ "" → host ∈ promoted →
      (scrape_sitemap_target promoted host o).attempts = [FetchAttempt.browser] ∨
      (scrape_sitemap_target promoted host o).attempts =
        [FetchAttempt.browser, FetchAttempt.direct]) ∧
    (¬(host ≠ "" ∧ host ∈ promoted) →
      (scrape_sitemap_target promoted host o).attempts.head? = some FetchAttempt.direct) ∧
    (∀ x ∈ promoted0, x ∈ run_scrapes promoted0 reqs) := by
  refine ⟨scrape_promoted_mono promoted host o, ?_, ?_, ?_, ?_⟩
  · intro x hx
    rw [scrape_sitemap_target] at hx
    split_ifs at hx with h1 h2 h3 h4
    · exact Or.inl hx
    · exact Or.inl hx
    · exact Or.inl hx
    · cases hcp : classify_probe o.probe with
      | some c =>
        rw [hcp] at hx
        have hx2 : x ∈ promoteHost promoted host := hx
        rw [promoteHost] at hx2
        split_ifs at hx2 with h5 h6
        · exact Or.inl hx2
        · exact Or.inl hx2
        · rcases List.mem_append.mp hx2 with hx3 | hx3
          · exact Or.inl hx3
          · have hxh : x = host := List.mem_singleton.mp hx3
            refine Or.inr ⟨hxh, hxh ▸ h6, ?_, by rfl, ?_⟩
            · have h2f : ((o.directEntries.getD []).filter
                  (fun u => u ≠ "")).isEmpty = true := by
                cases hE : ((o.directEntries.getD []).filter
                    (fun u => u ≠ "")).isEmpty
                · exact absurd (by rw [hE]; rfl) h3
                · rfl
              exact List.isEmpty_iff.mp h2f
            · intro hnil
              rw [hnil] at h4
              simp at h4
      | none =>
        rw [hcp] at hx
        exact Or.inl (show x ∈ promoted from hx)
    · cases hcp : classify_probe o.probe with
      | some c =>
        rw [hcp] at hx
        exact Or.inl (show x ∈ promoted from hx)
      | none =>
        rw [hcp] at hx
        exact Or.inl (show x ∈ promoted from hx)
  · intro hne hmem
    rw [scrape_sitemap_target, if_pos ⟨hne, hmem⟩]
    split_ifs with h2
    · exact Or.inl rfl
    · exact Or.inr rfl
  · intro h1
    rw [scrape_sitemap_target, if_neg h1]
    split_ifs with h2 h3
    · rfl
    · cases hcp : classify_probe o.probe with
      | some c => rfl
      | none => rfl
    · cases hcp : classify_probe o.probe with
      | some c => rfl
      | none => rfl
  · intro x hx
    induction reqs generalizing promoted0 with
    | nil => exact hx
    | cons req rest ih =>
      exact ih _ (scrape_promoted_mono promoted0 req.1 req.2 x hx)

/-- `hasKey` tests membership among the dict keys. -/
theorem hasKey_iff (seen : List (String × CssCand)) (s : String) :
    hasKey seen s = true ↔ s ∈ seen.map Prod.fst := by
  unfold hasKey
  rw [List.any_eq_true]
  constructor
  · rintro ⟨p, hp, he⟩
    have he2 : p.1 = s := by simpa using he
    rw [← he2]
    exact List.mem_map.mpr ⟨p, hp, rfl⟩
  · intro hm
    rcases List.mem_map.mp hm with ⟨p, hp, he⟩
    exact ⟨p, hp, by simpa using he⟩

/-- `keepFirstBySig` only consults the membership of the seen-signature
list. -/
theorem keepFirstBySig_congr (l : List CssCand) :
    ∀ (A B : List String), (∀ s, s ∈ A ↔ s ∈ B) →
      keepFirstBySig A l = keepFirstBySig B l := by
  induction l with
  | nil => intro A B _; rfl
  | cons c r ih =>
    intro A B h
    unfold keepFirstBySig
    by_cases hmem : sigTL c ∈ A
    · rw [if_pos hmem, if_pos ((h _).mp hmem)]
      exact ih A B h
    · rw [if_neg hmem, if_neg (fun hb => hmem ((h _).mpr hb))]
      rw [ih (sigTL c :: A) (sigTL c :: B) (fun s => by simp only [List.mem_cons, h s])]

/-- The fallback dedup loop is the first-wins filter. -/
theorem fallbackDedupAux_spec (cands : List CssCand) :
    ∀ (seen : List (String × CssCand)),
      (fallbackDedupAux cands seen).map Prod.snd =
        seen.map Prod.snd ++ keepFirstBySig (seen.map Prod.fst) cands := by
  induction cands with
  | nil => intro seen; simp [fallbackDedupAux, keepFirstBySig]
  | cons c r ih =>
    intro seen
    unfold fallbackDedupAux keepFirstBySig
    by_cases hk : hasKey seen (sigTL c) = true
    · rw [if_pos hk, if_pos ((hasKey_iff _ _).mp hk)]
      exact ih seen
    · have hk0 : hasKey seen (sigTL c) = false := by
        cases hE : hasKey seen (sigTL c)
        · rfl
        · exact absurd hE hk
      have hk2 : sigTL c ∉ seen.map Prod.fst := fun hb => hk ((hasKey_iff _ _).mpr hb)
      rw [hk0]
      simp only [Bool.false_eq_true, if_false]
      rw [if_neg hk2]
      rw [ih (seen ++ [(sigTL c, c)])]
      rw [List.map_append, List.map_append]
      simp only [List.map_cons, List.map_nil]
      rw [keepFirstBySig_congr r (seen.map Prod.fst ++ [sigTL c])
        (sigTL c :: seen.map Prod.fst)
        (fun s => by
          simp only [List.mem_append, List.mem_cons, List.not_mem_nil, or_false]
          tauto)]
      simp [List.append_assoc]

/-- Elements kept by the first-wins filter come from the input. -/
theorem keepFirstBySig_subset (l : List CssCand) :
    ∀ (sigs : List String) (c : CssCand), c ∈ keepFirstBySig sigs l → c ∈ l := by
  induction l with
  | nil => intro sigs c h; exact absurd h (List.not_mem_nil _)
  | cons c0 r ih =>
    intro sigs c h
    unfold keepFirstBySig at h
    split_ifs at h with hs
    · exact List.mem_cons.mpr (Or.inr (ih _ _ h))
    · rcases List.mem_cons.mp h with h | h
      · exact List.mem_cons.mpr (Or.inl h)
      · exact List.mem_cons.mpr (Or.inr (ih _ _ h))

/-- A kept element's signature was not among the already-seen ones. -/
theorem keepFirstBySig_not_seen (l : List CssCand) :
    ∀ (sigs : List String) (c : CssCand), c ∈ keepFirstBySig sigs l → sigTL c ∉ sigs := by
  induction l with
  | nil => intro sigs c h; exact absurd h (List.not_mem_nil _)
  | cons c0 r ih =>
    intro sigs c h
    unfold keepFirstBySig at h
    split_ifs at h with hs
    · exact ih _ _ h
    · rcases List.mem_cons.mp h with h | h
      · rw [h]; exact hs
      · intro hsig
        exact ih _ _ h (List.mem_cons.mpr (Or.inr hsig))

/-- The first-wins filter keeps at most one candidate per signature. -/
theorem keepFirstBySig_sig_nodup (l : List CssCand) :
    ∀ (sigs : List String), ((keepFirstBySig sigs l).map sigTL).Nodup := by
  induction l with
  | nil => intro sigs; simp [keepFirstBySig]
  | cons c0 r ih =>
    intro sigs
    unfold keepFirstBySig
    split_ifs with hs
    · exact ih _
    · simp only [List.map_cons]
      refine List.nodup_cons.mpr ⟨?_, ih _⟩
      intro hmem
      rcases List.mem_map.mp hmem with ⟨c1, hc1, he⟩
      have hns := keepFirstBySig_not_seen r _ c1 hc1
      rw [he] at hns
      exact hns (List.mem_cons_self _ _)

/-- The first-wins filter keeps at least one candidate per unseen
signature. -/
theorem keepFirstBySig_covers (l : List CssCand) :
    ∀ (sigs : List String) (c : CssCand), c ∈ l → sigTL c ∉ sigs →
      ∃ c1 ∈ keepFirstBySig sigs l, sigTL c1 = sigTL c := by
  induction l with
  | nil => intro sigs c h _; exact absurd h (List.not_mem_nil _)
  | cons c0 r ih =>
    intro sigs c h hns
    unfold keepFirstBySig
    by_cases hs : sigTL c0 ∈ sigs
    · rw [if_pos hs]
      rcases List.mem_cons.mp h with h | h
      · rw [h] at hns; exact absurd hs hns
      · exact ih sigs c h hns
    · rw [if_neg hs]
      by_cases hcc : sigTL c = sigTL c0
      · exact ⟨c0, List.mem_cons_self _ _, hcc.symm⟩
      · rcases List.mem_cons.mp h with h | h
        · rw [h] at hcc; exact absurd rfl hcc
        · rcases ih (sigTL c0 :: sigs) c h
            (fun hm => by
              rcases List.mem_cons.mp hm with hm | hm
              · exact hcc hm
              · exact hns hm) with ⟨c1, hc1, he⟩
          exact ⟨c1, List.mem_cons.mpr (Or.inr hc1), he⟩

/-- Replacing at a key keeps the key list unchanged. -/
theorem replaceIfHigher_fst (sig : String) (c : CssCand) :
    ∀ (seen : List (String × CssCand)),
      (replaceIfHigher seen sig c).map Prod.fst = seen.map Prod.fst := by
  intro seen
  induction seen with
  | nil => rfl
  | cons p r ih =>
    obtain ⟨s, e⟩ := p
    unfold replaceIfHigher
    by_cases hs : s = sig
    · rw [if_pos hs]
      simp
    · rw [if_neg hs]
      simp only [List.map_cons]
      rw [ih]

/-- Replacing at a key keeps the key-value pairing with the signature
map. -/
theorem replaceIfHigher_fst_eq (sig : String) (c : CssCand) (hsig : sig = sigFull c) :
    ∀ (seen : List (String × CssCand)),
      (∀ p ∈ seen, p.1 = sigFull p.2) →
      ∀ p ∈ replaceIfHigher seen sig c, p.1 = sigFull p.2 := by
  intro seen
  induction seen with
  | nil => intro _ p hp; exact absurd hp (List.not_mem_nil _)
  | cons q r ih =>
    obtain ⟨s, e⟩ := q
    intro hall p hp
    unfold replaceIfHigher at hp
    by_cases hs : s = sig
    · rw [if_pos hs] at hp
      rcases List.mem_cons.mp hp with hp | hp
      · rw [hp]
        by_cases hconf : e.confidence < c.confidence
        · rw [if_pos hconf]
          rw [hs, hsig]
        · rw [if_neg hconf]
          exact hall (s, e) (List.mem_cons_self _ _)
      · exact hall p (List.mem_cons.mpr (Or.inr hp))
    · rw [if_neg hs] at hp
      rcases List.mem_cons.mp hp with hp | hp
      · rw [hp]; exact hall (s, e) (List.mem_cons_self _ _)
      · exact ih (fun q hq => hall q (List.mem_cons.mpr (Or.inr hq))) p hp

/-- Every old entry maps to an entry of the replaced dict with the same
key and at-least-as-high confidence. -/
theorem replaceIfHigher_ge (sig : String) (c : CssCand) :
    ∀ (seen : List (String × CssCand)) (q : String × CssCand), q ∈ seen →
      ∃ q1 ∈ replaceIfHigher seen sig c, q1.1 = q.1 ∧
        q.2.confidence ≤ q1.2.confidence := by
  intro seen
  induction seen with
  | nil => intro q hq; exact absurd hq (List.not_mem_nil _)
  | cons p r ih =>
    obtain ⟨s, e⟩ := p
    intro q hq
    unfold replaceIfHigher
    by_cases hs : s = sig
    · rw [if_pos hs]
      rcases List.mem_cons.mp hq with hq | hq
      · refine ⟨(s, if e.confidence < c.confidence then c else e),
          List.mem_cons_self _ _, ?_, ?_⟩
        · rw [hq]
        · rw [hq]
          by_cases hconf : e.confidence < c.confidence
          · rw [if_pos hconf]
            exact le_of_lt hconf
          · rw [if_neg hconf]
      · exact ⟨q, List.mem_cons.mpr (Or.inr hq), rfl, le_refl _⟩
    · rw [if_neg hs]
      rcases List.mem_cons.mp hq with hq | hq
      · exact ⟨(s, e), List.mem_cons_self _ _, by rw [hq], by rw [hq]⟩
      · rcases ih q hq with ⟨q1, hq1, he, hc⟩
        exact ⟨q1, List.mem_cons.mpr (Or.inr hq1), he, hc⟩

/-- After replacing at a present key, some entry at that key dominates the
new candidate's confidence. -/
theorem replaceIfHigher_new_le (sig : String) (c : CssCand) :
    ∀ (seen : List (String × CssCand)), hasKey seen sig = true →
      ∃ q1 ∈ replaceIfHigher seen sig c, q1.1 = sig ∧
        c.confidence ≤ q1.2.confidence := by
  intro seen
  induction seen with
  | nil => intro hk; exact absurd hk (by simp [hasKey])
  | cons p r ih =>
    obtain ⟨s, e⟩ := p
    intro hk
    unfold replaceIfHigher
    by_cases hs : s = sig
    · rw [if_pos hs]
      refine ⟨(s, if e.confidence < c.confidence then c else e),
        List.mem_cons_self _ _, hs, ?_⟩
      by_cases hconf : e.confidence < c.confidence
      · rw [if_pos hconf]
      · rw [if_neg hconf]
        exact le_of_not_lt hconf
    · rw [if_neg hs]
      have hk2 : hasKey r sig = true := by
        have hm := (hasKey_iff _ _).mp hk
        simp only [List.map_cons] at hm
        rcases List.mem_cons.mp hm with hm | hm
        · exact absurd hm.symm hs
        · exact (hasKey_iff _ _).mpr hm
      rcases ih hk2 with ⟨q1, hq1, he, hc⟩
      exact ⟨q1, List.mem_cons.mpr (Or.inr hq1), he, hc⟩

/-- Values of the replaced dict are old values or the new candidate. -/
theorem replaceIfHigher_snd_sub (sig : String) (c : CssCand) :
    ∀ (seen : List (String × CssCand)) (p : String × CssCand),
      p ∈ replaceIfHigher seen sig c → p.2 ∈ seen.map Prod.snd ∨ p.2 = c := by
  intro seen
  induction seen with
  | nil => intro p hp; exact absurd hp (List.not_mem_nil _)
  | cons q r ih =>
    obtain ⟨s, e⟩ := q
    intro p hp
    unfold replaceIfHigher at hp
    by_cases hs : s = sig
    · rw [if_pos hs] at hp
      rcases List.mem_cons.mp hp with hp | hp
      · rw [hp]
        by_cases hconf : e.confidence < c.confidence
        · rw [if_pos hconf]
          exact Or.inr rfl
        · rw [if_neg hconf]
          exact Or.inl (List.mem_cons_self _ _)
      · exact Or.inl (List.mem_cons.mpr (Or.inr (List.mem_map.mpr ⟨p, hp, rfl⟩)))
    · rw [if_neg hs] at hp
      rcases List.mem_cons.mp hp with hp | hp
      · rw [hp]
        exact Or.inl (List.mem_cons_self _ _)
      · rcases ih p hp with h | h
        · exact Or.inl (List.mem_cons.mpr (Or.inr h))
        · exact Or.inr h

/-- Invariant of the `discover_selectors` dedup loop: keys are the
signatures of their values, keys stay distinct, values come from the old
dict or the input, every entry dominates the confidences of all old and
new candidates at its key, and keys only accumulate. -/
theorem discoverDedupAux_spec (cands : List CssCand) :
    ∀ (seen : List (String × CssCand)),
      (∀ p ∈ seen, p.1 = sigFull p.2) →
      ((seen.map Prod.fst).Nodup) →
      (∀ p ∈ discoverDedupAux cands seen, p.1 = sigFull p.2) ∧
      ((discoverDedupAux cands seen).map Prod.fst).Nodup ∧
      (∀ p ∈ discoverDedupAux cands seen, p.2 ∈ seen.map Prod.snd ∨ p.2 ∈ cands) ∧
      (∀ p ∈ discoverDedupAux cands seen, ∀ q ∈ seen, q.1 = p.1 →
        q.2.confidence ≤ p.2.confidence) ∧
      (∀ p ∈ discoverDedupAux cands seen, ∀ c0 ∈ cands, sigFull c0 = p.1 →
        c0.confidence ≤ p.2.confidence) ∧
      (∀ s ∈ seen.map Prod.fst, s ∈ (discoverDedupAux cands seen).map Prod.fst) ∧
      (∀ c0 ∈ cands, sigFull c0 ∈ (discoverDedupAux cands seen).map Prod.fst) := by
  induction cands with
  | nil =>
    intro seen hfst hnd
    refine ⟨hfst, hnd, ?_, ?_, ?_, ?_, ?_⟩
    · intro p hp; exact Or.inl (List.mem_map.mpr ⟨p, hp, rfl⟩)
    · intro p hp q hq hqe
      have hqp : q = p := List.inj_on_of_nodup_map hnd hq hp hqe
      rw [hqp]
    · intro p _ c0 hc0; exact absurd hc0 (List.not_mem_nil _)
    · intro s hs; exact hs
    · intro c0 hc0; exact absurd hc0 (List.not_mem_nil _)
  | cons c r ih =>
    intro seen hfst hnd
    unfold discoverDedupAux
    by_cases hk : hasKey seen (sigFull c) = true
    · rw [if_pos hk]
      have hfst2 : ∀ p ∈ replaceIfHigher seen (sigFull c) c, p.1 = sigFull p.2 :=
        replaceIfHigher_fst_eq (sigFull c) c rfl seen hfst
      have hnd2 : ((replaceIfHigher seen (sigFull c) c).map Prod.fst).Nodup := by
        rw [replaceIfHigher_fst]; exact hnd
      obtain ⟨ih1, ih2, ih3, ih4, ih5, ih6, ih7⟩ := ih _ hfst2 hnd2
      refine ⟨ih1, ih2, ?_, ?_, ?_, ?_, ?_⟩
      · intro p hp
        rcases ih3 p hp with h | h
        · rcases List.mem_map.mp h with ⟨q, hq, he⟩
          rcases replaceIfHigher_snd_sub (sigFull c) c seen q hq with h2 | h2
          · exact Or.inl (he ▸ h2)
          · exact Or.inr (List.mem_cons.mpr (Or.inl (by rw [← he, h2])))
        · exact Or.inr (List.mem_cons.mpr (Or.inr h))
      · intro p hp q hq hqe
        rcases replaceIfHigher_ge (sigFull c) c seen q hq with ⟨q1, hq1, he1, hc1⟩
        exact le_trans hc1 (ih4 p hp q1 hq1 (he1.trans hqe))
      · intro p hp c0 hc0 hce
        rcases List.mem_cons.mp hc0 with hc0 | hc0
        · rcases replaceIfHigher_new_le (sigFull c) c seen hk with ⟨q1, hq1, he1, hc1⟩
          have hle : c0.confidence ≤ q1.2.confidence := by rw [hc0]; exact hc1
          refine le_trans hle (ih4 p hp q1 hq1 ?_)
          rw [he1, ← hce, hc0]
        · exact ih5 p hp c0 hc0 hce
      · intro s hs
        refine ih6 s ?_
        rw [replaceIfHigher_fst]
        exact hs
      · intro c0 hc0
        rcases List.mem_cons.mp hc0 with hc0 | hc0
        · refine ih6 _ ?_
          rw [replaceIfHigher_fst, hc0]
          exact (hasKey_iff _ _).mp hk
        · exact ih7 c0 hc0
    · have hk0 : hasKey seen (sigFull c) = false := by
        cases hE : hasKey seen (sigFull c)
        · rfl
        · exact absurd hE hk
      rw [hk0]
      simp only [Bool.false_eq_true, if_false]
      have hknot : sigFull c ∉ seen.map Prod.fst := fun hb => hk ((hasKey_iff _ _).mpr hb)
      have hfst2 : ∀ p ∈ seen ++ [(sigFull c, c)], p.1 = sigFull p.2 := by
        intro p hp
        rcases List.mem_append.mp hp with hp | hp
        · exact hfst p hp
        · rw [List.mem_singleton.mp hp]
      have hnd2 : ((seen ++ [(sigFull c, c)]).map Prod.fst).Nodup := by
        rw [List.map_append]
        refine List.nodup_append.mpr ⟨hnd, List.nodup_singleton _, ?_⟩
        intro s hsm hsc
        rcases List.mem_singleton.mp hsc with rfl
        exact hknot hsm
      obtain ⟨ih1, ih2, ih3, ih4, ih5, ih6, ih7⟩ := ih _ hfst2 hnd2
      refine ⟨ih1, ih2, ?_, ?_, ?_, ?_, ?_⟩
      · intro p hp
        rcases ih3 p hp with h | h
        · rw [List.map_append] at h
          rcases List.mem_append.mp h with h | h
          · exact Or.inl h
          · exact Or.inr (List.mem_cons.mpr (Or.inl (List.mem_singleton.mp h)))
        · exact Or.inr (List.mem_cons.mpr (Or.inr h))
      · intro p hp q hq hqe
        exact ih4 p hp q (List.mem_append.mpr (Or.inl hq)) hqe
      · intro p hp c0 hc0 hce
        rcases List.mem_cons.mp hc0 with hc0 | hc0
        · have hmem : (sigFull c, c) ∈ seen ++ [(sigFull c, c)] :=
            List.mem_append.mpr (Or.inr (List.mem_singleton.mpr rfl))
          have hkey : (sigFull c, c).1 = p.1 := by
            show sigFull c = p.1
            rw [← hce, hc0]
          have := ih4 p hp (sigFull c, c) hmem hkey
          rw [hc0]
          exact this
        · exact ih5 p hp c0 hc0 hce
      · intro s hs
        refine ih6 s ?_
        rw [List.map_append]
        exact List.mem_append.mpr (Or.inl hs)
      · intro c0 hc0
        rcases List.mem_cons.mp hc0 with hc0 | hc0
        · refine ih6 _ ?_
          rw [List.map_append, hc0]
          exact List.mem_append.mpr (Or.inr (List.mem_singleton.mpr rfl))
        · exact ih7 c0 hc0

/-- C9 (counterexample): two candidates with identical selector signatures
and confidences 5 then 9 — `_css_selector_fallback` keeps the first,
lower-confidence one, refuting "the one with the highest confidence". -/
theorem css_dedup_counterexample :
    ¬ (∀ (cands : List CssCand) (c1 : CssCand), c1 ∈ css_selector_fallback_dedup cands →
        ∀ c0 ∈ cands, sigTL c0 = sigTL c1 → c0.confidence ≤ c1.confidence) := by
  intro hcl
  have h2 := hcl [candLow, candHigh] candLow (by decide) candHigh (by decide) (by decide)
  exact absurd h2 (by decide)

/-- C9 (amended): both dedup passes keep exactly one candidate per
signature and cover every input signature; `discover_selectors`
(selector_scraper.py) keeps a maximal-confidence representative, while
`_css_selector_fallback` (selection_extraction_pipeline.py) keeps the
first-accepted candidate per title-link signature regardless of
confidence. -/
theorem css_dedup_spec (cands : List CssCand) :
    css_selector_fallback_dedup cands = keepFirstBySig [] cands ∧
    ((css_selector_fallback_dedup cands).map sigTL).Nodup ∧
    (∀ c1 ∈ css_selector_fallback_dedup cands, c1 ∈ cands) ∧
    (∀ c ∈ cands, ∃ c1 ∈ css_selector_fallback_dedup cands, sigTL c1 = sigTL c) ∧
    ((discover_selectors_dedup cands).map sigFull).Nodup ∧
    (∀ c ∈ cands, ∃ c1 ∈ discover_selectors_dedup cands, sigFull c1 = sigFull c) ∧
    (∀ c1 ∈ discover_selectors_dedup cands, c1 ∈ cands ∧
      ∀ c0 ∈ cands, sigFull c0 = sigFull c1 → c0.confidence ≤ c1.confidence) := by
  have heqF : css_selector_fallback_dedup cands = keepFirstBySig [] cands := by
    unfold css_selector_fallback_dedup
    rw [fallbackDedupAux_spec cands []]
    rfl
  obtain ⟨d1, d2, d3, d4, d5, d6, d7⟩ :=
    discoverDedupAux_spec cands [] (by intro p hp; exact absurd hp (List.not_mem_nil _))
      List.nodup_nil
  refine ⟨heqF, ?_, ?_, ?_, ?_, ?_, ?_⟩
  · rw [heqF]; exact keepFirstBySig_sig_nodup cands []
  · intro c1 hc1
    rw [heqF] at hc1
    exact keepFirstBySig_subset cands [] c1 hc1
  · intro c hc
    rw [heqF]
    exact keepFirstBySig_covers cands [] c hc (List.not_mem_nil _)
  · unfold discover_selectors_dedup
    have hmm : (discoverDedupAux cands []).map (sigFull ∘ Prod.snd) =
        (discoverDedupAux cands []).map Prod.fst :=
      List.map_congr_left (fun p hp => (d1 p hp).symm)
    rw [List.map_map, hmm]
    exact d2
  · intro c hc
    have hkey := d7 c hc
    rcases List.mem_map.mp hkey with ⟨p, hp, he⟩
    refine ⟨p.2, List.mem_map.mpr ⟨p, hp, rfl⟩, ?_⟩
    rw [← d1 p hp, he]
  · intro c1 hc1
    rcases List.mem_map.mp hc1 with ⟨p, hp, he⟩
    constructor
    · rcases d3 p hp with h | h
      · exact absurd h (by simp)
      · rw [← he]; exact h
    · intro c0 hc0 hce
      rw [← he]
      refine d5 p hp c0 hc0 ?_
      rw [hce, ← he, ← d1 p hp]

/-- C9 (witness): the highest-confidence duplicate survives
`discover_selectors` dedup. -/
theorem css_dedup_spec_witness :
    ∃ c1 ∈ discover_selectors_dedup [candLow, candHigh], sigFull c1 = sigFull candLow :=
  (css_dedup_spec [candLow, candHigh]).2.2.2.2.2.1 candLow (by decide)

/-- C8 (witness): a promoted host is fetched browser-first. -/
theorem proxy_promotion_spec_witness :
    (scrape_sitemap_target ["a.com"] "a.com"
        { directEntries := some [], probe := none,
          browserEntries := ["https://a.com/x"] }).attempts = [FetchAttempt.browser] ∨
    (scrape_sitemap_target ["a.com"] "a.com"
        { directEntries := some [], probe := none,
          browserEntries := ["https://a.com/x"] }).attempts =
      [FetchAttempt.browser, FetchAttempt.direct] :=
  (proxy_promotion_spec ["a.com"] "a.com"
    { directEntries := some [], probe := none, browserEntries := ["https://a.com/x"] }
    [] []).2.2.1 (by decide) (by decide)


/-- Decimal digit characters have value at most 9. -/
theorem digitVal_le_nine (c : Char) (h : c.isDigit = true) : digitVal c ≤ 9 := by
  simp only [Char.isDigit, ge_iff_le, Bool.and_eq_true, decide_eq_true_eq] at h
  obtain ⟨h1, h2⟩ := h
  have h2' : c.val.toNat ≤ 57 := by
    have := UInt32.le_def.mp h2
    simpa using this
  unfold digitVal
  unfold Char.toNat
  omega

/-- Shape and bounds extracted from a successful anchored year match. -/
theorem year4_some_iff (l : List Char) (v : Nat) (h : year4? l = some v) :
    ∃ a b c d r, l = a :: b :: c :: d :: r ∧
      a.isDigit = true ∧ b.isDigit = true ∧ c.isDigit = true ∧ d.isDigit = true ∧
      v = 1000 * digitVal a + 100 * digitVal b + 10 * digitVal c + digitVal d ∧
      1950 ≤ v ∧ v ≤ 2039 := by
  rcases l with _ | ⟨a, _ | ⟨b, _ | ⟨c, _ | ⟨d, r⟩⟩⟩⟩
  · exact Option.noConfusion h
  · exact Option.noConfusion h
  · exact Option.noConfusion h
  · exact Option.noConfusion h
  · refine ⟨a, b, c, d, r, rfl, ?_⟩
    rw [year4?] at h
    by_cases hd : (a.isDigit && b.isDigit && c.isDigit && d.isDigit) = true
    · rw [if_pos hd] at h
      simp only [Bool.and_eq_true] at hd
      obtain ⟨⟨⟨ha, hb⟩, hc⟩, hdd⟩ := hd
      by_cases hr : 1950 ≤ 1000 * digitVal a + 100 * digitVal b + 10 * digitVal c + digitVal d ∧
          1000 * digitVal a + 100 * digitVal b + 10 * digitVal c + digitVal d ≤ 2039
      · rw [if_pos hr] at h
        obtain ⟨hr1, hr2⟩ := hr
        injection h with hv
        exact ⟨ha, hb, hc, hdd, hv.symm, by omega, by omega⟩
      · rw [if_neg hr] at h
        exact Option.noConfusion h
    · rw [if_neg hd] at h
      exact Option.noConfusion h

/-- The overlapping position scan on a head with no anchored match. -/
theorem positionYears_cons_none (c : Char) (rest : List Char)
    (h : year4? (c :: rest) = none) :
    positionYears (c :: rest) = positionYears rest := by
  rw [positionYears, h]

/-- The overlapping position scan on a head with an anchored match. -/
theorem positionYears_cons_some (c : Char) (rest : List Char) (v : Nat)
    (h : year4? (c :: rest) = some v) :
    positionYears (c :: rest) = v :: positionYears rest := by
  rw [positionYears, h]

/-- The non-overlapping regex scan on a head with no match. -/
theorem findallYears_cons_none (c : Char) (rest : List Char)
    (h : year4? (c :: rest) = none) :
    findallYears (c :: rest) = findallYears rest := by
  rw [findallYears, h]

/-- The non-overlapping regex scan on a head with a match. -/
theorem findallYears_cons_some (c : Char) (rest : List Char) (v : Nat)
    (h : year4? (c :: rest) = some v) :
    findallYears (c :: rest) = v :: findallYears (rest.drop 3) := by
  rw [findallYears, h]

/-- The non-overlapping regex scan of the empty string. -/
theorem findallYears_nil : findallYears [] = [] := by
  rw [findallYears]

/-- After a match of the current year 2025/2026, no in-range year can start
at any of the three following (overlapped) positions. -/
theorem positionYears_skip (a b c d : Char) (r : List Char) (y : Nat)
    (hy : y = 2025 ∨ y = 2026) (h : year4? (a :: b :: c :: d :: r) = some y) :
    positionYears (b :: c :: d :: r) = positionYears r := by
  obtain ⟨a1, b1, c1, d1, r1, heq, ha, hb, hc, hdd, hv, h1, h2⟩ := year4_some_iff _ _ h
  injection heq with e1 e2
  injection e2 with e2 e3
  injection e3 with e3 e4
  injection e4 with e4 e5
  subst e1; subst e2; subst e3; subst e4; subst e5
  have hba := digitVal_le_nine a ha
  have hbb := digitVal_le_nine b hb
  have hbc := digitVal_le_nine c hc
  have hbd := digitVal_le_nine d hdd
  have hdigits : digitVal b = 0 ∧ digitVal c = 2 ∧
      (digitVal d = 5 ∨ digitVal d = 6) := by
    rcases hy with rfl | rfl <;> omega
  obtain ⟨hdb, hdc, hdd5⟩ := hdigits
  have s1 : year4? (b :: c :: d :: r) = none := by
    cases hq : year4? (b :: c :: d :: r) with
    | none => rfl
    | some w =>
      exfalso
      obtain ⟨a2, b2, c2, d2, r2, heq2, -, -, -, hd2, hv2, hw1, hw2⟩ :=
        year4_some_iff _ _ hq
      injection heq2 with e1 e2
      injection e2 with e2 e3
      injection e3 with e3 e4
      subst e1; subst e2; subst e3
      have := digitVal_le_nine d2 hd2
      omega
  rw [positionYears_cons_none _ _ s1]
  have s2 : year4? (c :: d :: r) = none := by
    cases hq : year4? (c :: d :: r) with
    | none => rfl
    | some w =>
      exfalso
      obtain ⟨a2, b2, c2, d2, r2, heq2, -, -, hc2, hd2, hv2, hw1, hw2⟩ :=
        year4_some_iff _ _ hq
      injection heq2 with e1 e2
      injection e2 with e2 e3
      subst e1; subst e2
      have := digitVal_le_nine c2 hc2
      have := digitVal_le_nine d2 hd2
      omega
  rw [positionYears_cons_none _ _ s2]
  have s3 : year4? (d :: r) = none := by
    cases hq : year4? (d :: r) with
    | none => rfl
    | some w =>
      exfalso
      obtain ⟨a2, b2, c2, d2, r2, heq2, -, hb2, hc2, hd2, hv2, hw1, hw2⟩ :=
        year4_some_iff _ _ hq
      injection heq2 with e1 e2
      subst e1
      have := digitVal_le_nine b2 hb2
      have := digitVal_le_nine c2 hc2
      have := digitVal_le_nine d2 hd2
      omega
  rw [positionYears_cons_none _ _ s3]

/-- For safe current years the non-overlapping regex scan agrees with the
overlapping position scan on the all-current-year test. -/
theorem findall_all_eq_position_all (y : Nat) (hy : y = 2025 ∨ y = 2026) :
    ∀ (n : Nat) (u : List Char), u.length ≤ n →
      (findallYears u).all (fun t => t == y) =
        (positionYears u).all (fun t => t == y) := by
  intro n
  induction n with
  | zero =>
    intro u hu
    have h0 : u = [] := List.length_eq_zero.mp (Nat.le_zero.mp hu)
    subst h0
    rw [findallYears_nil]
    rfl
  | succ n ih =>
    intro u hu
    cases u with
    | nil =>
      rw [findallYears_nil]
      rfl
    | cons c rest =>
      cases hyr : year4? (c :: rest) with
      | none =>
        rw [findallYears_cons_none _ _ hyr, positionYears_cons_none _ _ hyr]
        exact ih rest (by simp at hu; omega)
      | some v =>
        rw [findallYears_cons_some _ _ _ hyr, positionYears_cons_some _ _ _ hyr]
        by_cases hvy : v = y
        · subst hvy
          obtain ⟨a2, b2, c2, d2, r2, heq2, -⟩ := year4_some_iff _ _ hyr
          injection heq2 with e1 hrest
          subst e1
          have hskip := positionYears_skip c b2 c2 d2 r2 v hy (hrest ▸ hyr)
          rw [hrest, hskip]
          have hdrop : (b2 :: c2 :: d2 :: r2).drop 3 = r2 := rfl
          rw [hdrop]
          have hlen : r2.length ≤ n := by
            simp at hu
            rw [hrest] at hu
            simp at hu
            omega
          rw [List.all_cons, List.all_cons, ih r2 hlen]
        · have hvy' : (v == y) = false := by simpa using hvy
          rw [List.all_cons, List.all_cons, hvy']
          simp

/-- The empty-or-all guard of the keep decision collapses to the all test. -/
theorem keepByYear_eq_all (y : Nat) (u : List Char) :
    keepByYear y u = (findallYears u).all (fun t => t == y) := by
  unfold keepByYear
  cases hys : findallYears u with
  | nil => rfl
  | cons a l => rfl

/-- The contains-other-year test is the negated all-current test. -/
theorem containsOtherYear_eq_not_all (y : Nat) (u : List Char) :
    containsOtherYear y u = !((positionYears u).all (fun t => t == y)) := by
  unfold containsOtherYear
  generalize positionYears u = l
  induction l with
  | nil => rfl
  | cons a l ih =>
    rw [List.any_cons, List.all_cons, ih, Bool.not_and]
    by_cases h : a = y
    · subst h; simp
    · simp [h]

/-- C4: for the safe current calendar years, `filter_sitemaps_by_year`
keeps a URL iff it contains no 4-digit year token in [1950, 2039] (at any
position, overlapping occurrences included) different from the current
year; a URL with no such token always passes, and the per-URL decision
rejects exactly when a different year token is present. -/
theorem year_filter_spec (y : Nat) (hy : y = 2025 ∨ y = 2026)
    (urls : List (List Char)) (u : List Char) :
    (u ∈ filter_sitemaps_by_year y urls ↔
      u ∈ urls ∧ containsOtherYear y u = false) ∧
    (keepByYear y u = false ↔ containsOtherYear y u = true) := by
  have hkey : keepByYear y u = !containsOtherYear y u := by
    rw [keepByYear_eq_all, containsOtherYear_eq_not_all,
      findall_all_eq_position_all y hy u.length u (Nat.le_refl _), Bool.not_not]
  constructor
  · unfold filter_sitemaps_by_year
    rw [List.mem_filter, hkey]
    constructor
    · rintro ⟨h1, h2⟩
      refine ⟨h1, ?_⟩
      cases hco : containsOtherYear y u with
      | false => rfl
      | true =>
        rw [hco] at h2
        exact absurd h2 (by simp)
    · rintro ⟨h1, h2⟩
      refine ⟨h1, ?_⟩
      rw [h2]
      rfl
  · rw [hkey]
    cases containsOtherYear y u <;> simp

/-- C4 (witness): with current year 2025, a URL carrying the year 2019 is
rejected and absent from the kept list. -/
theorem year_filter_spec_witness :
    ("a/2019/x".toList ∈
        filter_sitemaps_by_year 2025 ["a/2025/x".toList, "a/2019/x".toList] ↔
      "a/2019/x".toList ∈ ["a/2025/x".toList, "a/2019/x".toList] ∧
        containsOtherYear 2025 "a/2019/x".toList = false) ∧
    (keepByYear 2025 "a/2019/x".toList = false ↔
      containsOtherYear 2025 "a/2019/x".toList = true) :=
  year_filter_spec 2025 (Or.inl rfl) _ _


/-- The seen-set dedup loop yields a sublist of its input. -/
theorem dedupFirstAux_sublist {α : Type} [DecidableEq α] (seen : List α) :
    ∀ l : List α, List.Sublist (dedupFirstAux seen l) l := by
  intro l
  induction l generalizing seen with
  | nil => simp [dedupFirstAux]
  | cons u r ih =>
    rw [dedupFirstAux]
    by_cases hu : u ∈ seen
    · rw [if_pos hu]
      exact (ih seen).cons u
    · rw [if_neg hu]
      exact (ih (u :: seen)).cons₂ u

/-- Elements produced by the dedup loop were not in the seen set. -/
theorem dedupFirstAux_not_seen {α : Type} [DecidableEq α] (x : α) :
    ∀ (l seen : List α), x ∈ dedupFirstAux seen l → x ∉ seen := by
  intro l
  induction l with
  | nil => intro seen h; exact absurd h (by simp [dedupFirstAux])
  | cons u r ih =>
    intro seen h
    rw [dedupFirstAux] at h
    by_cases hu : u ∈ seen
    · rw [if_pos hu] at h
      exact ih seen h
    · rw [if_neg hu] at h
      rcases List.mem_cons.mp h with rfl | h2
      · exact hu
      · intro hx
        exact ih (u :: seen) h2 (List.mem_cons_of_mem u hx)

/-- The dedup loop returns a duplicate-free list. -/
theorem dedupFirstAux_nodup {α : Type} [DecidableEq α] :
    ∀ (l seen : List α), (dedupFirstAux seen l).Nodup := by
  intro l
  induction l with
  | nil => intro seen; simp [dedupFirstAux]
  | cons u r ih =>
    intro seen
    rw [dedupFirstAux]
    by_cases hu : u ∈ seen
    · rw [if_pos hu]
      exact ih seen
    · rw [if_neg hu]
      refine List.nodup_cons.mpr ⟨?_, ih (u :: seen)⟩
      intro hmem
      exact dedupFirstAux_not_seen u r (u :: seen) hmem (List.mem_cons_self u seen)

/-- Membership through the dedup loop. -/
theorem dedupFirstAux_mem {α : Type} [DecidableEq α] (x : α) :
    ∀ (l seen : List α), x ∈ dedupFirstAux seen l ↔ (x ∈ l ∧ x ∉ seen) := by
  intro l
  induction l with
  | nil => intro seen; simp [dedupFirstAux]
  | cons u r ih =>
    intro seen
    rw [dedupFirstAux]
    by_cases hu : u ∈ seen
    · rw [if_pos hu, ih seen]
      constructor
      · rintro ⟨h1, h2⟩
        exact ⟨List.mem_cons_of_mem u h1, h2⟩
      · rintro ⟨h1, h2⟩
        rcases List.mem_cons.mp h1 with rfl | h1
        · exact absurd hu h2
        · exact ⟨h1, h2⟩
    · rw [if_neg hu]
      constructor
      · intro h
        rcases List.mem_cons.mp h with rfl | h2
        · exact ⟨List.mem_cons_self x r, hu⟩
        · obtain ⟨h3, h4⟩ := (ih (u :: seen)).mp h2
          exact ⟨List.mem_cons_of_mem u h3,
            fun hx => h4 (List.mem_cons_of_mem u hx)⟩
      · rintro ⟨h1, h2⟩
        rcases List.mem_cons.mp h1 with rfl | h1
        · exact List.mem_cons_self x _
        · by_cases hxu : x = u
          · subst hxu
            exact List.mem_cons_self x _
          · refine List.mem_cons_of_mem u ((ih (u :: seen)).mpr ⟨h1, ?_⟩)
            intro hx
            rcases List.mem_cons.mp hx with h | h
            · exact hxu h
            · exact h2 h

/-- C10: `parse_sitemaps_from_robots` returns the sitemap URLs of the
`Sitemap:` lines deduplicated in first-occurrence order; with the default
news-only flag it additionally drops exactly the URLs whose lowercased form
contains none of the news keywords, so the result is a duplicate-free
sublist of the declared sitemap URLs whose members are exactly the
news-related declared URLs. -/
theorem robots_sitemaps_spec (absolutize : List Char → List Char)
    (robots : List Char) :
    (parse_sitemaps_from_robots absolutize robots false =
        dedupFirst (declaredSitemaps absolutize robots)) ∧
    (parse_sitemaps_from_robots absolutize robots true =
        (dedupFirst (declaredSitemaps absolutize robots)).filter newsRelated) ∧
    List.Sublist (parse_sitemaps_from_robots absolutize robots true)
        (declaredSitemaps absolutize robots) ∧
    (parse_sitemaps_from_robots absolutize robots true).Nodup ∧
    (∀ u, u ∈ parse_sitemaps_from_robots absolutize robots true ↔
        (u ∈ declaredSitemaps absolutize robots ∧ newsRelated u = true)) := by
  have hfalse : parse_sitemaps_from_robots absolutize robots false =
      dedupFirst (declaredSitemaps absolutize robots) := by
    unfold parse_sitemaps_from_robots
    by_cases hr : robots.isEmpty = true
    · rw [if_pos hr]
      have h0 : robots = [] := by
        cases robots with
        | nil => rfl
        | cons a l => exact absurd hr (by simp)
      subst h0
      rfl
    · rw [if_neg hr]
      rfl
  have htrue : parse_sitemaps_from_robots absolutize robots true =
      (dedupFirst (declaredSitemaps absolutize robots)).filter newsRelated := by
    unfold parse_sitemaps_from_robots
    by_cases hr : robots.isEmpty = true
    · rw [if_pos hr]
      have h0 : robots = [] := by
        cases robots with
        | nil => rfl
        | cons a l => exact absurd hr (by simp)
      subst h0
      rfl
    · rw [if_neg hr]
      rfl
  refine ⟨hfalse, htrue, ?_, ?_, ?_⟩
  · rw [htrue]
    exact (List.filter_sublist _).trans (dedupFirstAux_sublist [] _)
  · rw [htrue]
    exact (dedupFirstAux_nodup _ []).filter newsRelated
  · intro u
    rw [htrue, List.mem_filter, dedupFirst, dedupFirstAux_mem u _ []]
    simp

end NewsFinder
